import Mathlib

/-!
# Verification of the pAI_Lang core pipeline

A shallow embedding, in Lean 4, of the core components of the pAI_Lang
tooling repository:

* the Token Registry / ID generator
  (`compiler/semantic_analyzer/token_id_generator.py`),
* the structure synthesizer (`compiler/structure_synthesizer.py`) and the
  expression synthesizer
  (`compiler/structure_synthesizer/expression_synthesizer.py`),
* the pAI_Lang grammar parser (`decoder/pailang_parser.py`), and
* the context manager (`decoder/context_manager.py`),

with theorems settling the specification's claims about them.

Modelling conventions:

* Python `dict`s are embedded as association lists (`List (String × _)`)
  preserving insertion order; `dict.get`/`in` are first-match lookups and
  assignment updates the first matching key in place or appends a fresh
  binding at the end, exactly as Python dicts behave.
* Python strings are Lean `String`s; character classes are modelled over
  ASCII (the inputs of every claim are ASCII).
* The SHA-256 seed `int(sha256(value).hexdigest()[:8], 16)` and the UUID
  fallback digits are modelled as parameters (`hashSeed : String → Nat`,
  `uuid : Nat → Nat`); every theorem quantifies over them, so nothing
  proved depends on particular hash values.
* The collision-probing `while` loop of `_generate_new_token_id` is
  embedded with explicit fuel `99`.  The probe space is `1..99`; starting
  from a value in that range the Python loop either exits within 99
  membership checks or never exits (see `probeLoop_exits`), so fuel 99
  returns `some` exactly when the Python loop terminates, and `none`
  models divergence.
-/

namespace PAILang

/-! ## Small utilities: decimal rendering, Python-style padding -/

/-- Decimal digits of `n`, most significant first, with structural fuel
(`fuel > n` guarantees enough).  Mirrors Python `str(n)` for natural `n`. -/
def decDigitsAux : Nat → Nat → List Char
  | 0, _ => []
  | fuel + 1, n =>
    if n < 10 then [Nat.digitChar n]
    else decDigitsAux fuel (n / 10) ++ [Nat.digitChar (n % 10)]

/-- Python `str(n)` for a natural number `n`. -/
def decRepr (n : Nat) : String := String.mk (decDigitsAux (n + 1) n)

/-- Python `f"{n:02d}"` (equivalently `str(n).zfill(2)` for `0 ≤ n`):
zero-pad the decimal rendering of `n` to width 2. -/
def pad2 (n : Nat) : String := if n < 10 then "0" ++ decRepr n else decRepr n

/-- Python `s.isdigit()` for ASCII strings: non-empty and all digits. -/
def pyIsDigit (s : String) : Bool := !s.isEmpty && s.toList.all Char.isDigit

/-- Python `int(s)` on a string of decimal digits. -/
def strToNat (s : String) : Nat := s.toList.foldl (fun a c => a * 10 + c.toNat - 48) 0

/-! ## Association lists with Python dict semantics -/

/-- First-match lookup, like Python `d.get(k)` / `k in d`. -/
def alookup {α : Type} : List (String × α) → String → Option α
  | [], _ => none
  | (k, v) :: rest, key => if k = key then some v else alookup rest key

/-- Python `d[k] = v`: update the first binding of `k` in place, else
append a fresh binding at the end (dicts keep insertion order). -/
def dictSet {α : Type} : List (String × α) → String → α → List (String × α)
  | [], key, v => [(key, v)]
  | (k, w) :: rest, key, v =>
    if k = key then (key, v) :: rest else (k, w) :: dictSet rest key v

/-! ## `TokenIDGenerator._normalize_value` -/

/-- Python `\s` over ASCII: the whitespace characters recognised by `re`. -/
def isPySpace (c : Char) : Bool :=
  c = ' ' || c = '\t' || c = '\n' || c = '\x0d' || c = '\x0b' || c = '\x0c'

/-- Python `\w` over ASCII: letters, digits and underscore. -/
def isWordChar (c : Char) : Bool := c.isAlphanum || c = '_'

/-- Replace each run of whitespace with a single `'_'` (the effect of
`re.sub(r'\s+', '_', s)`).  The flag records whether the previous kept
character was part of a whitespace run. -/
def collapseSpacesAux : List Char → Bool → List Char
  | [], _ => []
  | c :: rest, inRun =>
    if isPySpace c then
      if inRun then collapseSpacesAux rest true
      else '_' :: collapseSpacesAux rest true
    else c :: collapseSpacesAux rest false

/-- `TokenIDGenerator._normalize_value`: lowercase, drop characters that are
neither word characters nor whitespace, collapse whitespace runs to `_`. -/
def normalizeValue (value : String) : String :=
  if value = "" then ""
  else
    let lowered := value.toList.map Char.toLower
    let kept := lowered.filter (fun c => isWordChar c || isPySpace c)
    String.mk (collapseSpacesAux kept false)

/-- Python `category.lower()` (ASCII). -/
def lowerStr (s : String) : String := String.mk (s.toList.map Char.toLower)

/-! ## The Token Registry / ID generator -/

/-- The category → one-letter code association of `TokenIDGenerator.__init__`,
in source (= dict insertion) order.  `system` and `security` both carry `S`;
because `system` is inserted first, reverse lookup of `S` always answers
`system`. -/
def categoryPrefixes : List (String × String) :=
  [("system", "S"), ("context", "C"), ("task", "T"), ("condition", "L"),
   ("action", "P"), ("resource", "R"), ("query", "Q"), ("batch", "B"),
   ("directive", "D"), ("memory", "M"), ("network", "N"), ("handler", "H"),
   ("security", "S")]

/-- The 13 documented category names. -/
def categoryNames : List String := categoryPrefixes.map Prod.fst

/-- A token registry: category name → (normalized value → bare identifier),
insertion-ordered at both levels, as persisted to the JSON store. -/
abbrev Registry := List (String × List (String × String))

/-- The mutable state of a `TokenIDGenerator`: the registry plus the
per-category counters. -/
structure GenState where
  registry : Registry
  counters : List (String × Nat)
deriving Repr, DecidableEq

/-- The state of a `TokenIDGenerator` constructed with no persisted store:
every category present with an empty map, every counter 1. -/
def emptyState : GenState :=
  { registry := categoryNames.map (fun c => (c, []))
    counters := categoryNames.map (fun c => (c, 1)) }

/-- One step of the collision probe: `token_id = (token_id % 99) + 1`. -/
def probeStep (t : Nat) : Nat := t % 99 + 1

/-- The identifiers already used in a category, in insertion order
(`self.token_registry[category].values()`). -/
def takenIds (reg : Registry) (category : String) : List String :=
  match alookup reg category with
  | some m => m.map Prod.snd
  | none => []

/-- The collision-probing `while` loop of `_generate_new_token_id`.
`start` is the initial `((seed + category_counter) % 99) + 1`; `k` counts
loop iterations (indexing the modelled UUID draws).  Fuel 99 is exact:
from `start ∈ [1,99]` the Python loop either exits within 99 membership
checks (whenever some probe value in `1..99` is free, it is reached before
the wrap-around that triggers the UUID fallback) or runs forever. -/
def probeLoop (taken : List String) (start : Nat) (uuid : Nat → Nat) :
    Nat → Nat → Nat → Option Nat
  | 0, _, _ => none
  | fuel + 1, t, k =>
    if taken.contains (pad2 t) then
      let t1 := probeStep t
      let t2 := if t1 = start then uuid k % 99 + 1 else t1
      probeLoop taken start uuid fuel t2 (k + 1)
    else some t

/-- `TokenIDGenerator._generate_new_token_id`.  Returns the new bare
identifier and the updated counters; `none` models a diverging probe loop. -/
def genNewTokenId (hashSeed : String → Nat) (uuid : Nat → Nat)
    (st : GenState) (value category : String) :
    Option (String × List (String × Nat)) :=
  let nextId := (alookup st.counters category).getD 1
  if value = "" then
    let tokenId := nextId
    some (pad2 tokenId, dictSet st.counters category (max nextId tokenId + 1))
  else
    let seed := hashSeed value
    let start := (seed + nextId) % 99 + 1
    match probeLoop (takenIds st.registry category) start uuid 99 start 0 with
    | none => none
    | some t => some (pad2 t, dictSet st.counters category (max nextId t + 1))

/-- Store `registry[category][value] = tokenId`, creating the category map
when absent (`if normalized_category not in self.token_registry: ... = {}`). -/
def regStore (reg : Registry) (category value tokenId : String) : Registry :=
  match alookup reg category with
  | some m => dictSet reg category (dictSet m value tokenId)
  | none => reg ++ [(category, [(value, tokenId)])]

/-- `TokenIDGenerator.generate_token_id` (also the body of `get_token_id`,
which merely delegates to it).  Persistence to the backing file does not
change the in-memory state and is dealt with by `reloadState` below. -/
def generateTokenId (hashSeed : String → Nat) (uuid : Nat → Nat)
    (st : GenState) (value category : String) : Option (String × GenState) :=
  let nv := normalizeValue value
  let nc := lowerStr category
  let pre := (alookup categoryPrefixes nc).getD "D"
  match alookup st.registry nc with
  | some m =>
    match alookup m nv with
    | some tokenId => some (pre ++ tokenId, st)
    | none => generateFresh hashSeed uuid st nv nc pre
  | none => generateFresh hashSeed uuid st nv nc pre
where
  /-- The branch of `generate_token_id` taken when the token is not yet in
  the registry: generate, store, bump the counter. -/
  generateFresh (hashSeed : String → Nat) (uuid : Nat → Nat) (st : GenState)
      (nv nc pre : String) : Option (String × GenState) :=
    match genNewTokenId hashSeed uuid st nv nc with
    | none => none
    | some (tokenId, counters1) =>
      let registry1 := regStore st.registry nc nv tokenId
      let counters2 :=
        match alookup counters1 nc with
        | some cur => dictSet counters1 nc (max cur (strToNat tokenId + 1))
        | none => counters1
      some (pre ++ tokenId, { registry := registry1, counters := counters2 })

/-- `TokenIDGenerator.get_value_from_token`: split off the one-character
prefix, find the first category carrying that prefix, then reverse-search
that category's map; `(none, none)` is the explicit not-found result. -/
def getValueFromToken (reg : Registry) (token : String) :
    Option String × Option String :=
  match token.toList with
  | c1 :: c2 :: rest =>
    let pre := String.mk [c1]
    let tokenId := String.mk (c2 :: rest)
    match findCategoryByCode categoryPrefixes pre with
    | some category =>
      match alookup reg category with
      | some m =>
        match reverseLookup m tokenId with
        | some value => (some value, some category)
        | none => (none, none)
      | none => (none, none)
    | none => (none, none)
  | _ => (none, none)
where
  /-- First category whose prefix letter matches (`for cat, pre in
  self.category_prefixes.items()`). -/
  findCategoryByCode : List (String × String) → String → Option String
    | [], _ => none
    | (cat, p) :: rest, pre => if p = pre then some cat else findCategoryByCode rest pre
  /-- First value bound to the identifier (`for value, tid in ... .items()`). -/
  reverseLookup : List (String × String) → String → Option String
    | [], _ => none
    | (v, tid) :: rest, tokenId =>
      if tid = tokenId then some v else reverseLookup rest tokenId

/-- `TokenIDGenerator._initialize_category_counters` applied to a freshly
loaded registry: counters start at 1 for the 13 categories, then each
category present in the registry (and known to the counter table) gets
`max numeric identifier + 1`. -/
def initCounters (reg : Registry) : List (String × Nat) :=
  reg.foldl
    (fun counters p =>
      match alookup counters p.fst with
      | some _ =>
        let maxId := p.snd.foldl
          (fun m q => if pyIsDigit q.snd then max m (strToNat q.snd) else m) 0
        dictSet counters p.fst (maxId + 1)
      | none => counters)
    (categoryNames.map (fun c => (c, 1)))

/-- Reconstructing a `TokenIDGenerator` from the persisted store: the JSON
document is exactly the nested registry map (§6 of the spec), so the
reloaded registry is the saved one, and the counters are re-derived by
`_initialize_category_counters`. -/
def reloadState (st : GenState) : GenState :=
  { registry := st.registry, counters := initCounters st.registry }

/-! ## `ExpressionSynthesizer.synthesize_from_tree`

The renderer's input trees are dicts with a `type` tag among `token`,
`sequence`, `parallel`, `conditional`, `repetition` — exactly the node
variants named by the round-trip claim.  The `operator` fields default to
`>` and `&` and the trees of the claims never override them; `count` is
rendered with `f"{count}"`, i.e. `str`. -/

inductive SynTree where
  | token (value : String)
  | sequence (left right : SynTree)
  | parallel (left right : SynTree)
  | conditional (condition trueBranch : SynTree) (falseBranch : Option SynTree)
  | repetition (count : Nat) (expression : SynTree)
deriving Repr

/-- `ExpressionSynthesizer.synthesize_from_tree`.  The precedence table and
`requires_brackets` sets built by `ExpressionSynthesizer.__init__` are never
consulted by this method (they are dead configuration in the source): no
case inserts any bracket. -/
def synthesizeFromTree : SynTree → String
  | .token v => v
  | .sequence l r => synthesizeFromTree l ++ ">" ++ synthesizeFromTree r
  | .parallel l r => synthesizeFromTree l ++ "&" ++ synthesizeFromTree r
  | .conditional c t (some f) =>
    synthesizeFromTree c ++ "?" ++ synthesizeFromTree t ++ ":" ++ synthesizeFromTree f
  | .conditional c t none => synthesizeFromTree c ++ "?" ++ synthesizeFromTree t
  | .repetition n e => "**" ++ decRepr n ++ synthesizeFromTree e

/-! ## The pAI_Lang grammar parser (`decoder/pailang_parser.py`)

Two objects of the source are embedded separately.

The grammar as declared: the EBNF grammar string of
`PAILangParser.__init__` is embedded as a backtracking recursive descent
(`grammarParse` below) that follows it production by production and applies
`PAILangTransformer`'s shaping as it reduces (left folds for the repeated
infix operators, threes-grouping for `?:`, pass-through for single-child
rules).  Anonymous literal terminals (`"?" ":" "," "[" "]" "#" "B" "**"` …)
are dropped from the children, which is what Lark does by default — hence
`aggregation`/`batch` reproduce the source's `args[1:]` slicing over
expression children.  Notes:

* `context_activation: expression "!" token_sequence` is left-recursive
  through `expression` and is omitted from the descent; every derivation
  through it emits a `"!"`, so for `"!"`-free input (all inputs below)
  membership in the grammar's language is unchanged.
* `%ignore WS` is not modelled; no input below contains whitespace.
* The grammar admits no empty expression, and `token` requires a category
  letter followed by exactly two digits (`IDENTIFIER: DIGIT DIGIT`).

The parser as constructed: `__init__` hands this grammar to
`Lark(self.grammar, start='pailang', parser='lalr')`.  The grammar is
ambiguous through `context_activation` — e.g. `"T12>T13&T14!T15T16"`
derives both as one `context_activation` whose left expression is
`T12>T13&T14` and as the sequence `T12 > ((T13&T14)!T15T16)` — so the LALR
table construction meets reduce/reduce collisions and the constructor
raises `GrammarError`.  `PAILangParser.parse` therefore never runs on any
input: every use of the class raises at construction, which `parse` below
records.  Accordingly, only error results are ever asserted of the
program's parser; `.ok` results are asserted only of `grammarParse`, the
reading of the grammar text itself. -/

inductive PNode where
  | stok (categoryCode identifier : String)
  | ctok (typeCode categoryCode identifier : String)
  | seqE (l r : PNode)
  | parE (l r : PNode)
  | pipeE (l r : PNode)
  | assignE (l r : PNode)
  | condE (c t f : PNode)
  | repE (count : Nat) (e : PNode)
  | aggE (es : List PNode)
  | batchE (es : List PNode)
  | brackE (es : List PNode)
  | tokSeq (ts : List PNode)
deriving Repr

/-- A parsed `version_component`. -/
structure VComp where
  vtype : String
  number : String
deriving Repr, DecidableEq

/-- The optional `system_with_version` header. -/
structure SysHeader where
  id : String
  version : Option (List VComp)
deriving Repr, DecidableEq

/-- The transformed top-level `pailang` node. -/
structure PTop where
  system : Option SysHeader
  expr : PNode
deriving Repr

/-- `CATEGORY_CODE: /[CLMDNTPRSHQB]/`. -/
def isCategoryCode (c : Char) : Bool :=
  c = 'C' || c = 'L' || c = 'M' || c = 'D' || c = 'N' || c = 'T' ||
  c = 'P' || c = 'R' || c = 'S' || c = 'H' || c = 'Q' || c = 'B'

/-- `ALPHA_CHAR: /[A-Z]/`. -/
def isAlphaUp (c : Char) : Bool := 'A' ≤ c && c ≤ 'Z'

/-- `token: standard_token | complex_token`, with the transformer's token
dicts (`categoryCode`/`identifier`/`typePrefix` fields). -/
def parseTok : List Char → Option (PNode × List Char)
  | c :: d1 :: d2 :: d3 :: c2 :: e1 :: e2 :: e3 :: rest =>
    -- three-letter TYPE_PREFIX complex token
    if isAlphaUp c && isAlphaUp d1 && isAlphaUp d2 && isCategoryCode d3 &&
        c2.isDigit && e1.isDigit && e2.isDigit && !e3.isDigit then
      -- (guard: a complex identifier is exactly three digits)
      some (.ctok (String.mk [c, d1, d2]) (String.mk [d3]) (String.mk [c2, e1, e2]),
        e3 :: rest)
    else parseTokShort (c :: d1 :: d2 :: d3 :: c2 :: e1 :: e2 :: e3 :: rest)
  | cs => parseTokShort cs
where
  /-- standard token, two-letter complex token, or three-letter complex at
  end of input. -/
  parseTokShort : List Char → Option (PNode × List Char)
    | c :: d1 :: d2 :: rest =>
      if isCategoryCode c && d1.isDigit && d2.isDigit then
        some (.stok (String.mk [c]) (String.mk [d1, d2]), rest)
      else
        match c :: d1 :: d2 :: rest with
        | a :: b :: cc :: e1 :: e2 :: e3 :: rest2 =>
          if isAlphaUp a && isAlphaUp b && isCategoryCode cc &&
              e1.isDigit && e2.isDigit && e3.isDigit then
            some (.ctok (String.mk [a, b]) (String.mk [cc]) (String.mk [e1, e2, e3]),
              rest2)
          else
            match a :: b :: cc :: e1 :: e2 :: e3 :: rest2 with
            | a1 :: a2 :: a3 :: cc2 :: f1 :: f2 :: f3 :: rest3 =>
              if isAlphaUp a1 && isAlphaUp a2 && isAlphaUp a3 && isCategoryCode cc2 &&
                  f1.isDigit && f2.isDigit && f3.isDigit then
                some (.ctok (String.mk [a1, a2, a3]) (String.mk [cc2])
                  (String.mk [f1, f2, f3]), rest3)
              else none
            | _ => none
        | _ => none
    | _ => none

mutual

/-- `expression: assignment_expression` (pass-through). -/
def parseExpression : Nat → List Char → Option (PNode × List Char)
  | 0, _ => none
  | fuel + 1, cs => parseAssignment fuel cs

/-- `assignment_expression: conditional_expression ("=" conditional_expression)*`,
left-folded into `AssignmentExpression` nodes by the transformer. -/
def parseAssignment : Nat → List Char → Option (PNode × List Char)
  | 0, _ => none
  | fuel + 1, cs =>
    match parseConditional fuel cs with
    | some (e, rest) => parseAssignmentRest fuel e rest
    | none => none

def parseAssignmentRest : Nat → PNode → List Char → Option (PNode × List Char)
  | 0, _, _ => none
  | fuel + 1, acc, cs =>
    match cs with
    | '=' :: rest =>
      match parseConditional fuel rest with
      | some (e, rest2) => parseAssignmentRest fuel (.assignE acc e) rest2
      | none => some (acc, cs)
    | _ => some (acc, cs)

/-- `conditional_expression: piping_expression ("?" piping_expression ":"
piping_expression)*`; the transformer groups the children in threes. -/
def parseConditional : Nat → List Char → Option (PNode × List Char)
  | 0, _ => none
  | fuel + 1, cs =>
    match parsePiping fuel cs with
    | some (e, rest) => parseConditionalRest fuel e rest
    | none => none

def parseConditionalRest : Nat → PNode → List Char → Option (PNode × List Char)
  | 0, _, _ => none
  | fuel + 1, acc, cs =>
    match cs with
    | '?' :: rest =>
      match parsePiping fuel rest with
      | some (t, rest2) =>
        match rest2 with
        | ':' :: rest3 =>
          match parsePiping fuel rest3 with
          | some (f, rest4) => parseConditionalRest fuel (.condE acc t f) rest4
          | none => some (acc, cs)
        | _ => some (acc, cs)
      | none => some (acc, cs)
    | _ => some (acc, cs)

/-- `piping_expression: parallel_expression ("|" parallel_expression)*`. -/
def parsePiping : Nat → List Char → Option (PNode × List Char)
  | 0, _ => none
  | fuel + 1, cs =>
    match parseParallel fuel cs with
    | some (e, rest) => parsePipingRest fuel e rest
    | none => none

def parsePipingRest : Nat → PNode → List Char → Option (PNode × List Char)
  | 0, _, _ => none
  | fuel + 1, acc, cs =>
    match cs with
    | '|' :: rest =>
      match parseParallel fuel rest with
      | some (e, rest2) => parsePipingRest fuel (.pipeE acc e) rest2
      | none => some (acc, cs)
    | _ => some (acc, cs)

/-- `parallel_expression: sequence_expression ("&" sequence_expression)*`. -/
def parseParallel : Nat → List Char → Option (PNode × List Char)
  | 0, _ => none
  | fuel + 1, cs =>
    match parseSequence fuel cs with
    | some (e, rest) => parseParallelRest fuel e rest
    | none => none

def parseParallelRest : Nat → PNode → List Char → Option (PNode × List Char)
  | 0, _, _ => none
  | fuel + 1, acc, cs =>
    match cs with
    | '&' :: rest =>
      match parseSequence fuel rest with
      | some (e, rest2) => parseParallelRest fuel (.parE acc e) rest2
      | none => some (acc, cs)
    | _ => some (acc, cs)

/-- `sequence_expression: aggregation_expression (">" aggregation_expression)*`. -/
def parseSequence : Nat → List Char → Option (PNode × List Char)
  | 0, _ => none
  | fuel + 1, cs =>
    match parseAggregation fuel cs with
    | some (e, rest) => parseSequenceRest fuel e rest
    | none => none

def parseSequenceRest : Nat → PNode → List Char → Option (PNode × List Char)
  | 0, _, _ => none
  | fuel + 1, acc, cs =>
    match cs with
    | '>' :: rest =>
      match parseAggregation fuel rest with
      | some (e, rest2) => parseSequenceRest fuel (.seqE acc e) rest2
      | none => some (acc, cs)
    | _ => some (acc, cs)

/-- `aggregation_expression: repetition_expression | ("#" "[" expression
("," expression)* "]")`.  With the anonymous `#`, `[`, `,`, `]` filtered,
the transformer sees only the expressions: one child passes through,
otherwise it emits `AggregationExpression` over `args[1:]` (dropping the
first expression — the source comment believes it is skipping `#`). -/
def parseAggregation : Nat → List Char → Option (PNode × List Char)
  | 0, _ => none
  | fuel + 1, cs =>
    match cs with
    | '#' :: '[' :: rest =>
      match parseExpression fuel rest with
      | some (e, rest2) =>
        match parseExprListRest fuel [e] rest2 with
        | some (es, rest3) =>
          match rest3 with
          | ']' :: rest4 =>
            match es with
            | [single] => some (single, rest4)
            | _ => some (.aggE (es.drop 1), rest4)
          | _ => parseRepetition fuel cs
        | none => parseRepetition fuel cs
      | none => parseRepetition fuel cs
    | _ => parseRepetition fuel cs

/-- `("," expression)*` inside aggregation / bracketed lists. -/
def parseExprListRest : Nat → List PNode → List Char → Option (List PNode × List Char)
  | 0, _, _ => none
  | fuel + 1, acc, cs =>
    match cs with
    | ',' :: rest =>
      match parseExpression fuel rest with
      | some (e, rest2) => parseExprListRest fuel (acc ++ [e]) rest2
      | none => some (acc, cs)
    | _ => some (acc, cs)

/-- `repetition_expression: atomic_expression ("**" DIGIT ["[" expression "]"])?`.
When the bracketed expression is present the transformer's `args[1]`
replaces the atomic operand. -/
def parseRepetition : Nat → List Char → Option (PNode × List Char)
  | 0, _ => none
  | fuel + 1, cs =>
    match parseAtomic fuel cs with
    | some (a, rest) =>
      match rest with
      | '*' :: '*' :: d :: rest2 =>
        if d.isDigit then
          match rest2 with
          | '[' :: rest3 =>
            match parseExpression fuel rest3 with
            | some (e, rest4) =>
              match rest4 with
              | ']' :: rest5 => some (.repE (d.toNat - 48) e, rest5)
              | _ => some (.repE (d.toNat - 48) a, '[' :: rest3)
            | none => some (.repE (d.toNat - 48) a, '[' :: rest3)
          | _ => some (.repE (d.toNat - 48) a, rest2)
        else some (a, rest)
      | _ => some (a, rest)
    | none => none

/-- `atomic_expression: token | bracketed_expression | batch_operation |
context_activation | token_sequence` (context activation omitted, see the
section comment; `token_sequence: token token+` is tried before a lone
`token` so that maximal token runs are taken, matching the grammar's
language). -/
def parseAtomic : Nat → List Char → Option (PNode × List Char)
  | 0, _ => none
  | fuel + 1, cs =>
    match parseTokenSequence fuel cs with
    | some r => some r
    | none =>
      match parseTok cs with
      | some r => some r
      | none =>
        match parseBracketed fuel cs with
        | some r => some r
        | none => parseBatch fuel cs

/-- `token_sequence: token token+` → `TokenSequence` node. -/
def parseTokenSequence : Nat → List Char → Option (PNode × List Char)
  | 0, _ => none
  | fuel + 1, cs =>
    match parseTok cs with
    | some (t1, rest) =>
      match parseTok rest with
      | some (t2, rest2) =>
        match parseTokRun fuel [t1, t2] rest2 with
        | (ts, rest3) => some (.tokSeq ts, rest3)
      | none => none
    | none => none

def parseTokRun : Nat → List PNode → List Char → List PNode × List Char
  | 0, acc, cs => (acc, cs)
  | fuel + 1, acc, cs =>
    match parseTok cs with
    | some (t, rest) => parseTokRun fuel (acc ++ [t]) rest
    | none => (acc, cs)

/-- `bracketed_expression: "[" expression ("," expression)* "]"` →
`BracketedExpression` over the expression list. -/
def parseBracketed : Nat → List Char → Option (PNode × List Char)
  | 0, _ => none
  | fuel + 1, cs =>
    match cs with
    | '[' :: rest =>
      match parseExpression fuel rest with
      | some (e, rest2) =>
        match parseExprListRest fuel [e] rest2 with
        | some (es, rest3) =>
          match rest3 with
          | ']' :: rest4 => some (.brackE es, rest4)
          | _ => none
        | none => none
      | none => none
    | _ => none

/-- `batch_operation: "B" "[" expression ("&" expression)* "]"`; the
transformer keeps `args[1:]` of the expression children. -/
def parseBatch : Nat → List Char → Option (PNode × List Char)
  | 0, _ => none
  | fuel + 1, cs =>
    match cs with
    | 'B' :: '[' :: rest =>
      match parseExpression fuel rest with
      | some (e, rest2) =>
        match parseBatchRest fuel [e] rest2 with
        | some (es, rest3) =>
          match rest3 with
          | ']' :: rest4 => some (.batchE (es.drop 1), rest4)
          | _ => none
        | none => none
      | none => none
    | _ => none

def parseBatchRest : Nat → List PNode → List Char → Option (List PNode × List Char)
  | 0, _, _ => none
  | fuel + 1, acc, cs =>
    match cs with
    | '&' :: rest =>
      match parseExpression fuel rest with
      | some (e, rest2) => parseBatchRest fuel (acc ++ [e]) rest2
      | none => some (acc, cs)
    | _ => some (acc, cs)

end

/-- `version_number: DIGIT "." DIGIT ["." DIGIT]`, rendered back to
`"d.d[.d]"` by the transformer. -/
def parseVersionNumber : List Char → Option (String × List Char)
  | d1 :: '.' :: d2 :: '.' :: d3 :: rest =>
    if d1.isDigit && d2.isDigit && d3.isDigit then
      some (String.mk [d1, '.', d2, '.', d3], rest)
    else if d1.isDigit && d2.isDigit then
      some (String.mk [d1, '.', d2], '.' :: d3 :: rest)
    else none
  | d1 :: '.' :: d2 :: rest =>
    if d1.isDigit && d2.isDigit then some (String.mk [d1, '.', d2], rest) else none
  | _ => none

/-- `version_component: VERSION_TYPE "-" version_number`,
`VERSION_TYPE: "G" | "TD" | "OP"`. -/
def parseVersionComponent (cs : List Char) : Option (VComp × List Char) :=
  match cs with
  | 'T' :: 'D' :: '-' :: rest => (parseVersionNumber rest).map (fun p => (⟨"TD", p.1⟩, p.2))
  | 'O' :: 'P' :: '-' :: rest => (parseVersionNumber rest).map (fun p => (⟨"OP", p.1⟩, p.2))
  | 'G' :: '-' :: rest => (parseVersionNumber rest).map (fun p => (⟨"G", p.1⟩, p.2))
  | _ => none

/-- `("," version_component)*`. -/
def parseVCompRest : Nat → List VComp → List Char → List VComp × List Char
  | 0, acc, cs => (acc, cs)
  | fuel + 1, acc, cs =>
    match cs with
    | ',' :: rest =>
      match parseVersionComponent rest with
      | some (v, rest2) => parseVCompRest fuel (acc ++ [v]) rest2
      | none => (acc, cs)
    | _ => (acc, cs)

/-- `version_declaration: "[" version_component ("," version_component)* "]"`. -/
def parseVersionDecl (cs : List Char) : Option (List VComp × List Char) :=
  match cs with
  | '[' :: rest =>
    match parseVersionComponent rest with
    | some (v, rest2) =>
      match parseVCompRest rest.length [v] rest2 with
      | (vs, rest3) =>
        match rest3 with
        | ']' :: rest4 => some (vs, rest4)
        | _ => none
    | none => none
  | _ => none

/-- The `[system_with_version]` header candidates at the start of the input:
`system_id: ALPHA_CHAR DIGIT [DIGIT]` (three- or two-character form), each
optionally followed by a `version_declaration`. -/
def headerCandidates (cs : List Char) : List (SysHeader × List Char) :=
  let sysIds : List (String × List Char) :=
    match cs with
    | a :: d1 :: d2 :: rest =>
      (if isAlphaUp a && d1.isDigit && d2.isDigit then
        [(String.mk [a, d1, d2], rest)] else []) ++
      (if isAlphaUp a && d1.isDigit then [(String.mk [a, d1], d2 :: rest)] else [])
    | a :: d1 :: rest =>
      if isAlphaUp a && d1.isDigit then [(String.mk [a, d1], rest)] else []
    | _ => []
  sysIds.foldr
    (fun p acc =>
      (match parseVersionDecl p.2 with
       | some (vs, rest2) => [((⟨p.1, some vs⟩ : SysHeader), rest2)]
       | none => []) ++
      [((⟨p.1, none⟩ : SysHeader), p.2)] ++ acc)
    []

/-- First complete parse among the `pailang: [system_with_version] expression`
alternatives: the bare expression, then each header candidate followed by an
expression; the whole input must be consumed (Lark fails on trailing input).
The inputs settled below are unambiguous, so the order of alternatives does
not affect them. -/
def parsePailang (cs : List Char) : Option PTop :=
  let fuel := cs.length * 12 + 64
  match parseExpression fuel cs with
  | some (e, []) => some ⟨none, e⟩
  | _ =>
    (headerCandidates cs).foldr
      (fun p acc =>
        match parseExpression fuel p.2 with
        | some (e, []) => some ⟨some p.1, e⟩
        | _ => acc)
      none

/-- The reading of the input under the grammar string as declared in
`PAILangParser.__init__` (via `parsePailang`), with `PAILangTransformer`'s
shaping: the AST a parser built from that grammar would return on success,
`Except.error` with the source's message when the input is outside the
grammar's language.  This is the reference point for what the declared
grammar says about a string; the program's parser itself never gets this
far, see `parse`. -/
def grammarParse (s : String) : Except String PTop :=
  match parsePailang s.toList with
  | some t => Except.ok t
  | none => Except.error "Error parsing pAI_Lang string"

/-- `PAILangParser.parse` as observable on the program.  The constructor
passes the grammar to `Lark(self.grammar, start='pailang', parser='lalr')`;
the grammar is ambiguous through `context_activation: expression "!"
token_sequence` (see the section comment above), the LALR table
construction hits reduce/reduce collisions, and Lark raises `GrammarError`
from `__init__`.  Every call of `parse` therefore raises — before the
input is even looked at — and the method returns an AST for no input. -/
def parse (_s : String) : Except String PTop :=
  Except.error "GrammarError raised by Lark LALR construction in __init__"

/-- The identification of the renderer's tree vocabulary with the parser's
AST vocabulary under which the round-trip claim compares the two (the spec's
§3 single node vocabulary): a renderer `token` whose value is a standard
token string corresponds to the parser's `StandardToken` with the same
one-letter category code and identifier; the binary and conditional and
repetition nodes correspond constructor-wise.  A conditional without a
false branch has no parser counterpart (the grammar's `?:` always carries
both branches), whence the `Option`. -/
def absTree : SynTree → Option PNode
  | .token v => some (.stok (String.mk (v.toList.take 1)) (String.mk (v.toList.drop 1)))
  | .sequence l r => do pure (.seqE (← absTree l) (← absTree r))
  | .parallel l r => do pure (.parE (← absTree l) (← absTree r))
  | .conditional c t (some f) => do pure (.condE (← absTree c) (← absTree t) (← absTree f))
  | .conditional _ _ none => none
  | .repetition n e => do pure (.repE n (← absTree e))

/-! ## `StructureSynthesizer` (`compiler/structure_synthesizer.py`)

The element stream fed to the shunting-yard pass: token dicts
(`{"type": "token", "value": v}`) and operator strings. -/

inductive Elem where
  | tok (value : String)
  | op (s : String)
deriving Repr, DecidableEq

/-- Items of the postfix output queue: tokens, operator strings, and the
specially-built conditional records.  A conditional's `condition` is the raw
element `elements[i-1]` captured by the special case. -/
inductive OutElem where
  | tok (v : String)
  | op (s : String)
  | cond (condition : Option Elem) (trueBranch falseBranch : List OutElem)
deriving Repr

/-- `self.operator_precedence` of `StructureSynthesizer.__init__`
(insertion order preserved; higher number = higher precedence). -/
def operatorPrecedenceTable : List (String × Nat) :=
  [("[]", 9), ("!", 8), ("**", 7), ("?:", 6), ("&", 5), ("|", 4),
   (">", 3), ("=", 2), ("#", 1)]

/-- `self.operator_associativity`. -/
def operatorAssociativityTable : List (String × String) :=
  [("[]", "none"), ("!", "right"), ("**", "right"), ("?:", "right"),
   ("&", "left"), ("|", "left"), (">", "left"), ("=", "right"), ("#", "right")]

/-- `StructureSynthesizer._get_operator_precedence` (default 0). -/
def getOperatorPrecedence (op : String) : Nat :=
  if op = "?" || op = ":" then (alookup operatorPrecedenceTable "?:").getD 0
  else (alookup operatorPrecedenceTable op).getD 0

/-- `StructureSynthesizer._get_operator_associativity` (default `left`). -/
def getOperatorAssociativity (op : String) : String :=
  if op = "?" || op = ":" then (alookup operatorAssociativityTable "?:").getD "right"
  else (alookup operatorAssociativityTable op).getD "left"

/-- Python `needle in hay` on strings (substring test). -/
def listContainsSub : List Char → List Char → Bool
  | [], needle => needle.isEmpty
  | c :: rest, needle => needle.isPrefixOf (c :: rest) || listContainsSub rest needle

def strContainsSub (hay needle : String) : Bool := listContainsSub hay.toList needle.toList

/-- The inner precedence scan of `_needs_brackets`, in the precedence
table's key order. -/
def needsBracketsLoop : List String → String → String → Bool
  | [], _, _ => false
  | op :: rest, expr, parentOp =>
    if strContainsSub expr op && op ≠ parentOp &&
        getOperatorPrecedence op < getOperatorPrecedence parentOp then true
    else needsBracketsLoop rest expr parentOp

/-- `StructureSynthesizer._needs_brackets`. -/
def needsBrackets (expr parentOp : String) : Bool :=
  let keys := operatorPrecedenceTable.map Prod.fst
  if expr = "" || (expr.length ≤ 3 && !(keys.any (fun op => strContainsSub expr op))) then
    false
  else needsBracketsLoop keys expr parentOp

/-- The `":"`-matching scan of the conditional special case: from absolute
position `j`, with the given nesting counter, return the absolute position
of the matching `":"` (or the length of the list when there is none). -/
def findColonAux : List Elem → Nat → Nat → Nat
  | [], j, _ => j
  | e :: rest, j, nesting =>
    if e = .op "?" && nesting = 0 then findColonAux rest (j + 1) (nesting + 1)
    else if e = .op ":" && nesting = 0 then j
    else if e = .op ":" then findColonAux rest (j + 1) (nesting - 1)
    else findColonAux rest (j + 1) nesting

/-- `"]"` / `","` handling: pop operators to the output queue until the
bracket; `discard` tells whether the `"["` itself is then popped (true for
`"]"`, false for `","`).  The operator stack keeps its top at the head
(Python appends and pops at the end of the list). -/
def popToBracket : List OutElem → List String → Bool → List OutElem × List String
  | outq, [], _ => (outq, [])
  | outq, top :: rest, discard =>
    if top = "[" then (outq, if discard then rest else top :: rest)
    else popToBracket (outq ++ [.op top]) rest discard

/-- The precedence-driven pop loop before pushing operator `s`. -/
def popWhilePrec : List OutElem → List String → String → List OutElem × List String
  | outq, [], _ => (outq, [])
  | outq, top :: rest, s =>
    if top ≠ "[" &&
        ((getOperatorAssociativity s = "left" &&
          getOperatorPrecedence s ≤ getOperatorPrecedence top) ||
         (getOperatorAssociativity s = "right" &&
          getOperatorPrecedence s < getOperatorPrecedence top)) then
      popWhilePrec (outq ++ [.op top]) rest s
    else (outq, top :: rest)

mutual

/-- `StructureSynthesizer._apply_shunting_yard`. -/
def applyShuntingYard (elements : List Elem) : List OutElem :=
  syAux elements 0 [] []
termination_by (elements.length, elements.length + 1)
decreasing_by
  apply Prod.Lex.right
  omega

/-- The `while i < len(elements)` loop, carrying the output queue and the
operator stack.  On loop exit the remaining operators are popped onto the
queue.  The conditional special case recursively reduces the two branch
slices, replaces the queue's last entry by the conditional record, and jumps
`i` to the end of the list. -/
def syAux (elements : List Elem) (i : Nat) (outq : List OutElem)
    (stack : List String) : List OutElem :=
  if h : i < elements.length then
    match elements[i] with
    | .tok v => syAux elements (i + 1) (outq ++ [.tok v]) stack
    | .op s =>
      if s = "[" then syAux elements (i + 1) outq ("[" :: stack)
      else if s = "]" then
        let p := popToBracket outq stack true
        syAux elements (i + 1) p.1 p.2
      else if s = "," then
        let p := popToBracket outq stack false
        syAux elements (i + 1) p.1 p.2
      else if s = "?" then
        let j := findColonAux (elements.drop (i + 1)) (i + 1) 0
        if hj : j < elements.length then
          -- `elements[i-1]` (Python indexing: `elements[-1]` when `i = 0`)
          let condition := if i = 0 then elements.getLast? else elements[i-1]?
          let trueQ := applyShuntingYard ((elements.drop (i + 1)).take (j - (i + 1)))
          let falseQ := applyShuntingYard (elements.drop (j + 1))
          -- `output_queue.pop()` when non-empty, then append the conditional;
          -- `i = len(elements)` ends the loop, so the stack is flushed here
          (outq.dropLast ++ [.cond condition trueQ falseQ]) ++ stack.map .op
        else
          let p := popWhilePrec outq stack s
          syAux elements (i + 1) p.1 (s :: p.2)
      else
        let p := popWhilePrec outq stack s
        syAux elements (i + 1) p.1 (s :: p.2)
  else outq ++ stack.map .op
termination_by (elements.length, elements.length - i)
decreasing_by
  all_goals first
  | (apply Prod.Lex.right; omega)
  | (apply Prod.Lex.left
     simp only [List.length_take, List.length_drop]
     omega)

end

/-- The operator cases of the `_build_expression` reduction loop: how one
operator string transforms the operand stack (top at the head; Python
appends and pops at the end of its list).  A binary / `!` / `**` operator
finding fewer than two operands pops and re-pushes the lone operand,
leaving the stack unchanged; operator strings matching none of the cases
(`"["`, `"?"`, …) are ignored. -/
def applyOpToStack (s : String) (stack : List String) : List String :=
  if s = ">" || s = "&" || s = "|" || s = "=" then
    match stack with
    | right :: left :: rest2 =>
      let leftExpr := if needsBrackets left s then "[" ++ left ++ "]" else left
      let rightExpr := if needsBrackets right s then "[" ++ right ++ "]" else right
      (leftExpr ++ s ++ rightExpr) :: rest2
    | _ => stack
  else if s = "#" then
    match stack with
    | operand :: rest2 => ("#" ++ operand) :: rest2
    | [] => stack
  else if s = "!" then
    match stack with
    | context :: expression :: rest2 => (expression ++ "!" ++ context) :: rest2
    | _ => stack
  else if s = "**" then
    match stack with
    | count :: expression :: rest2 =>
      let exprB := if needsBrackets expression "**" then "[" ++ expression ++ "]"
        else expression
      ("**" ++ count ++ exprB) :: rest2
    | _ => stack
  else stack

/-- `element.get("condition", {}).get("value", "")` on a conditional
record: only a token element yields its value (the source would raise an
`AttributeError` on an operator string there, a path no input below
reaches). -/
def condValue : Option Elem → String
  | some (.tok v) => v
  | _ => ""

/-- The stack-reduction loop of `StructureSynthesizer._build_expression`.
The operand stack has its top at the head; the final result is Python's
`stack[0]`, the bottom of the stack, hence `getLast?`.  A conditional
record renders `cond?true:false` with no added brackets, reducing each
branch queue with a fresh stack (the source calls `_build_expression`
recursively, which is this loop started on the empty stack). -/
def buildLoop : List OutElem → List String → String
  | [], stack => (stack.getLast?).getD ""
  | .tok v :: rest, stack => buildLoop rest (v :: stack)
  | .cond c tb fb :: rest, stack =>
    buildLoop rest
      ((condValue c ++ "?" ++ buildLoop tb [] ++ ":" ++ buildLoop fb []) :: stack)
  | .op s :: rest, stack => buildLoop rest (applyOpToStack s stack)

/-- `StructureSynthesizer._build_expression`. -/
def buildExpression (outputQueue : List OutElem) : String :=
  buildLoop outputQueue []

/-- An entry of the semantic structure's `tokens` list / of the
`token_mappings` values; only the `source` and `token` keys are read
(`.get("source")`, `.get("token", "")`). -/
structure SemToken where
  source : Option String
  token : Option String
deriving Repr, DecidableEq

/-- The typed relationship variants consumed by
`_convert_to_expression_elements` (dispatch on `relationship.get("type")`;
unrecognised types contribute nothing). -/
inductive Rel where
  | binary (operator : Option String) (source target : Option String)
  | conditional (condition trueBranch falseBranch : Option String)
  | repetition (expression : Option String) (count : Option Nat)
  | contextActivation (expression context : Option String)
  | aggregation (expressions : List (Option String))
  | unknown
deriving Repr

/-- The semantic structure dict: `elements`, `tokens`, `relationships`,
each defaulting to the empty list. -/
structure SemStruct where
  elements : List Elem
  tokens : List SemToken
  relationships : List Rel
deriving Repr

/-- The semantic-analysis dict handed to `synthesize`.  `semantic_structure`
is `none` when the key is missing or the dict is empty (falsy);
`operator_mappings` is received but never read and is not modelled. -/
structure SemanticAnalysis where
  tokenMappings : List (String × SemToken)
  semanticStructure : Option SemStruct

/-- `for token_id, token in token_mappings.items(): if token.get("source")
== source: source_token = token` — the last matching entry wins. -/
def findTokenBySource (tms : List (String × SemToken)) (src : Option String) :
    Option SemToken :=
  tms.foldl (fun acc p => if p.2.source = src then some p.2 else acc) none

/-- The element contribution of one relationship. -/
def relElements (tms : List (String × SemToken)) : Rel → List Elem
  | .binary operator source target =>
    match findTokenBySource tms source, findTokenBySource tms target with
    | some s, some t =>
      [.tok (s.token.getD ""), .op (operator.getD ">"), .tok (t.token.getD "")]
    | _, _ => []
  | .conditional condition trueBranch falseBranch =>
    match findTokenBySource tms condition, findTokenBySource tms trueBranch with
    | some c, some t =>
      [.tok (c.token.getD ""), .op "?", .tok (t.token.getD "")] ++
      (match findTokenBySource tms falseBranch with
       | some f => [.op ":", .tok (f.token.getD "")]
       | none => [])
    | _, _ => []
  | .repetition expression count =>
    match findTokenBySource tms expression with
    | some e => [.tok (e.token.getD ""), .op "**", .tok (decRepr (count.getD 1))]
    | none => []
  | .contextActivation expression context =>
    match findTokenBySource tms expression, findTokenBySource tms context with
    | some e, some c => [.tok (e.token.getD ""), .op "!", .tok (c.token.getD "")]
    | _, _ => []
  | .aggregation expressions =>
    let exprToks := expressions.foldl
      (fun acc expr =>
        acc ++ (tms.filter (fun p => p.2.source = expr)).map Prod.snd)
      []
    match exprToks with
    | [] => []
    | first :: others =>
      [.op "#", .op "[", .tok (first.token.getD "")] ++
      (others.foldl (fun acc t => acc ++ [.op ",", .tok (t.token.getD "")]) []) ++
      [.op "]"]
  | .unknown => []

/-- `StructureSynthesizer._convert_to_expression_elements`. -/
def convertToExpressionElements (ss : SemStruct)
    (tms : List (String × SemToken)) : List Elem :=
  if !ss.elements.isEmpty then ss.elements
  else if ss.relationships.isEmpty && !ss.tokens.isEmpty then
    ss.tokens.map (fun t => .tok (t.token.getD ""))
  else
    let els := ss.relationships.foldl (fun acc r => acc ++ relElements tms r) []
    if els.isEmpty && !ss.tokens.isEmpty then ss.tokens.map (fun t => .tok (t.token.getD ""))
    else els

/-- `StructureSynthesizer.synthesize`. -/
def synthesize (sa : SemanticAnalysis) : String :=
  match sa.semanticStructure with
  | none =>
    match sa.tokenMappings with
    | [] => ""
    | (_, t) :: _ => t.token.getD ""
  | some ss =>
    let elements := convertToExpressionElements ss sa.tokenMappings
    if elements = [] then ""
    else buildExpression (applyShuntingYard elements)

/-! ## `ContextManager` (`decoder/context_manager.py`)

Python values (token definitions, contexts, modifiers) are embedded as a
JSON-like type; dict entries keep insertion order.  The context stack is a
Lean list in Python list order: `activate_context` appends, so the last
element is the top of the stack (the innermost active context). -/

inductive PyVal where
  | pstr (s : String)
  | pint (n : Int)
  | pdict (entries : List (String × PyVal))
  | plist (items : List PyVal)
deriving Repr

/-- `d.get(k)` on a dict value; `none` for missing keys and for non-dict
receivers (in the latter case the source would raise, a path no theorem
below reaches). -/
def pget : PyVal → String → Option PyVal
  | .pdict l, k => alookup l k
  | _, _ => none

/-- The per-context applicability test of the scan loop in
`resolve_in_context`: `'tokenModifiers' in ctx.get('definition', {})` and
`token.get('categoryCode') in ctx_def['tokenModifiers']`; on success the
modifier `ctx_def['tokenModifiers'][category]`. -/
def ctxModifierFor (token ctx : PyVal) : Option PyVal :=
  let ctxDef := (pget ctx "definition").getD (.pdict [])
  match pget ctxDef "tokenModifiers" with
  | some tm =>
    match pget token "categoryCode" with
    | some (.pstr cat) => pget tm cat
    | _ => none
  | none => none

/-- `dict.update(other)`: existing keys overwritten in place, new keys
appended, in `other`'s order. -/
def dictUpdate (base other : List (String × PyVal)) : List (String × PyVal) :=
  other.foldl (fun m q => dictSet m q.1 q.2) base

/-- One key of an `extend` modifier applied to the working definition. -/
def extendStep (acc : List (String × PyVal)) (kv : String × PyVal) :
    List (String × PyVal) :=
  match alookup acc kv.1 with
  | none => dictSet acc kv.1 kv.2
  | some cur =>
    match cur, kv.2 with
    | .pdict c, .pdict p => dictSet acc kv.1 (.pdict (dictUpdate c p))
    | .plist c, .plist p => dictSet acc kv.1 (.plist (c ++ p))
    | _, _ => dictSet acc kv.1 kv.2

/-- The `elif key == 'extend'` branch body (`value.items()` iteration);
a non-dict extension value would raise in the source (unreached below). -/
def extendItems (acc : List (String × PyVal)) (v : PyVal) : List (String × PyVal) :=
  match v with
  | .pdict kvs => kvs.foldl extendStep acc
  | _ => acc

/-- The `elif key == 'modify'` branch body: overwrite only keys already
present. -/
def modifyItems (acc : List (String × PyVal)) (v : PyVal) : List (String × PyVal) :=
  match v with
  | .pdict kvs =>
    kvs.foldl
      (fun a q => match alookup a q.1 with
        | some _ => dictSet a q.1 q.2
        | none => a)
      acc
  | _ => acc

/-- The `for key, value in modifier.items()` loop of
`_apply_context_modifier`; `override` returns its value immediately. -/
def applyModItems : List (String × PyVal) → List (String × PyVal) → PyVal
  | acc, [] => .pdict acc
  | acc, (k, v) :: rest =>
    if k = "override" then v
    else if k = "extend" then applyModItems (extendItems acc v) rest
    else if k = "modify" then applyModItems (modifyItems acc v) rest
    else applyModItems acc rest

/-- `ContextManager._apply_context_modifier`.  The working copy starts from
`token_def.copy()`; non-dict token definitions or modifiers would raise in
the source and are unreached below. -/
def applyContextModifier (tokenDef modifier : PyVal) : PyVal :=
  let base := match tokenDef with | .pdict l => l | _ => []
  match modifier with
  | .pdict items => applyModItems base items
  | _ => .pdict base

/-- The `for ctx in self.context_stack` scan: the stack list is iterated
from index 0 — the **bottom** of the stack, i.e. the outermost active
context — and the first applicable context wins. -/
def scanStack : List PyVal → PyVal → PyVal → Option PyVal
  | [], _, _ => none
  | ctx :: rest, token, tokenDef =>
    match ctxModifierFor token ctx with
    | some modifier => some (applyContextModifier tokenDef modifier)
    | none => scanStack rest token tokenDef

/-- The base definition line of `resolve_in_context`:
`token_def = token_dictionary.get(token.get('value'), {})`. -/
def baseTokenDef (token tokenDictionary : PyVal) : PyVal :=
  (match pget token "value" with
   | some (.pstr s) => pget tokenDictionary s
   | _ => none).getD (.pdict [])

/-- Python truthiness of the embedded values: the empty string, zero and
empty containers are falsy, everything else truthy (`if not active_context`
in `resolve_in_context` tests this, not only `None`-ness). -/
def pyTruthy : PyVal → Bool
  | .pstr s => !(s == "")
  | .pint n => !(n == 0)
  | .pdict entries => !entries.isEmpty
  | .plist items => !items.isEmpty

/-- `ContextManager.resolve_in_context`.  `stack` is `self.context_stack`
(`activate_context` appends at the end, so the innermost context is the
last element).  `get_current_context` returns the last element, or `None`
on an empty stack; the guard `if not active_context: return token_def`
fires both on `None` and on a falsy current context (e.g. the empty
dict), whence the `pyTruthy` test. -/
def resolveInContext (stack : List PyVal) (token : PyVal)
    (tokenDictionary : PyVal) : PyVal :=
  let tokenDef := baseTokenDef token tokenDictionary
  match stack.getLast? with
  | none => tokenDef
  | some active =>
    if pyTruthy active = false then tokenDef
    else
    let behavior :=
      match pget tokenDef "contextBehaviors" with
      | some cb =>
        match pget active "id" with
        | some (.pstr cid) => pget cb cid
        | _ => none
      | none => none
    match behavior with
    | some b => b
    | none =>
      match scanStack stack token tokenDef with
      | some resolved => resolved
      | none => tokenDef

/-! ## Well-formedness of registry states (used by the amended claim C2) -/

/-- The category's counter (`self.category_counters.get(category, 1)`). -/
def catCounter (st : GenState) (category : String) : Nat :=
  (alookup st.counters category).getD 1

/-- The well-formedness invariant of a registry state at one category,
under which token resolution is unambiguous: reverse-unique identifiers,
each a two-digit id `pad2 k` (`1 ≤ k ≤ 99`) below the category counter
(the seeding `_initialize_category_counters` establishes), and at most 98
entries so that a free probe slot remains.  The empty registry satisfies
it, and so does every state produced from it by `generate_token_id`. -/
def RegInv (st : GenState) (category : String) : Prop :=
  match alookup st.registry category with
  | none => True
  | some m =>
    (m.map Prod.snd).Nodup ∧ m.length ≤ 98 ∧
    ∀ p ∈ m, ∃ k, 1 ≤ k ∧ k ≤ 99 ∧ p.2 = pad2 k ∧ k < catCounter st category

/-- String projection of a dict entry, used to discriminate resolution
results. -/
def pgetStr (v : PyVal) (k : String) : String :=
  match pget v k with
  | some (.pstr s) => s
  | _ => ""

/-! ## Helper lemmas: association lists -/

theorem alookup_dictSet_self {α : Type} (m : List (String × α)) (k : String) (v : α) :
    alookup (dictSet m k v) k = some v := by
  induction m with
  | nil => simp [dictSet, alookup]
  | cons p rest ih =>
    by_cases h : p.1 = k
    · simp [dictSet, alookup, h]
    · simpa [dictSet, alookup, h] using ih

theorem alookup_dictSet_ne {α : Type} (m : List (String × α)) (k k2 : String) (v : α)
    (h : k ≠ k2) : alookup (dictSet m k2 v) k = alookup m k := by
  have h2 : ¬(k2 = k) := fun hh => h hh.symm
  induction m with
  | nil => simp [dictSet, alookup, h2]
  | cons p rest ih =>
    by_cases hp : p.1 = k2
    · simp only [dictSet, hp, if_pos rfl]
      simp [alookup, h2, hp]
    · simp only [dictSet, if_neg hp]
      by_cases hpk : p.1 = k
      · simp [alookup, hpk]
      · simpa [alookup, hpk] using ih

theorem alookup_mem {α : Type} {m : List (String × α)} {k : String} {v : α}
    (h : alookup m k = some v) : (k, v) ∈ m := by
  induction m with
  | nil => simp [alookup] at h
  | cons p rest ih =>
    obtain ⟨pk, pv⟩ := p
    by_cases hp : pk = k
    · subst hp
      simp only [alookup, if_true, if_pos] at h
      rw [Option.some.injEq] at h
      subst h
      exact List.mem_cons_self _ _
    · simp only [alookup, if_neg hp] at h
      exact List.mem_cons_of_mem _ (ih h)

theorem alookup_eq_none_of_not_mem {α : Type} {m : List (String × α)} {k : String}
    (h : k ∉ m.map Prod.fst) : alookup m k = none := by
  induction m with
  | nil => rfl
  | cons p rest ih =>
    simp only [List.map_cons, List.mem_cons] at h
    push_neg at h
    have h1 : ¬(p.1 = k) := fun hh => h.1 hh.symm
    simp [alookup, h1, ih h.2]

theorem alookup_append_of_none {α : Type} {m : List (String × α)} {k : String}
    (l2 : List (String × α)) (h : alookup m k = none) :
    alookup (m ++ l2) k = alookup l2 k := by
  induction m with
  | nil => rfl
  | cons p rest ih =>
    by_cases hp : p.1 = k
    · simp [alookup, hp] at h
    · simp only [alookup, hp, if_neg hp] at h ⊢
      exact ih h

theorem dictSet_of_none {α : Type} {m : List (String × α)} {k : String} (v : α)
    (h : alookup m k = none) : dictSet m k v = m ++ [(k, v)] := by
  induction m with
  | nil => rfl
  | cons p rest ih =>
    by_cases hp : p.1 = k
    · simp [alookup, hp] at h
    · simp only [alookup, hp, if_neg hp] at h
      simp [dictSet, hp, ih h]

theorem contains_false_iff (l : List String) (x : String) :
    l.contains x = false ↔ x ∉ l := by
  induction l with
  | nil => simp
  | cons a rest ih => simp_all [List.contains_cons]

/-! ## Helper lemmas: two-digit identifiers -/

set_option maxRecDepth 4000

theorem strToNat_pad2 : ∀ n ∈ Finset.Icc 0 99, strToNat (pad2 n) = n := by decide

theorem pad2_props : ∀ n ∈ Finset.Icc 0 99,
    (pad2 n).length = 2 ∧ (pad2 n).toList.all Char.isDigit = true := by decide

theorem pad2_inj {n m : Nat} (hn : n ≤ 99) (hm : m ≤ 99) (h : pad2 n = pad2 m) :
    n = m := by
  have h1 := strToNat_pad2 n (by simp [Finset.mem_Icc]; omega)
  have h2 := strToNat_pad2 m (by simp [Finset.mem_Icc]; omega)
  rw [h] at h1
  omega

theorem pad2_length_two {n : Nat} (hn : n ≤ 99) : (pad2 n).length = 2 :=
  (pad2_props n (by simp [Finset.mem_Icc]; omega)).1

theorem decDigitsAux_ne_nil (fuel n : Nat) (h : n < fuel) :
    decDigitsAux fuel n ≠ [] := by
  match fuel with
  | f + 1 =>
    rw [decDigitsAux]
    by_cases h10 : n < 10
    · simp [h10]
    · simp [h10]

theorem decDigitsAux_len_ge3 (fuel n : Nat) (h1 : n < fuel) (h2 : 100 ≤ n) :
    3 ≤ (decDigitsAux fuel n).length := by
  match fuel with
  | f + 1 =>
    rw [decDigitsAux, if_neg (by omega)]
    have hf : n / 10 < f := by omega
    match f, hf with
    | f2 + 1, hf =>
      rw [decDigitsAux, if_neg (by omega)]
      have hf2 : n / 10 / 10 < f2 := by omega
      have := decDigitsAux_ne_nil f2 (n / 10 / 10) hf2
      have hlen : 1 ≤ (decDigitsAux f2 (n / 10 / 10)).length := by
        cases hh : decDigitsAux f2 (n / 10 / 10) with
        | nil => exact absurd hh this
        | cons a l => simp
      simp only [List.length_append, List.length_cons, List.length_nil]
      omega

theorem pad2_length_ge2 (n : Nat) : 2 ≤ (pad2 n).length := by
  by_cases h10 : n < 10
  · have := pad2_length_two (n := n) (by omega)
    omega
  · rw [pad2, if_neg h10]
    show 2 ≤ (String.mk (decDigitsAux (n + 1) n)).length
    rw [String.length_mk, decDigitsAux, if_neg h10]
    have hne := decDigitsAux_ne_nil n (n / 10) (by omega)
    have hlen : 1 ≤ (decDigitsAux n (n / 10)).length := by
      cases hh : decDigitsAux n (n / 10) with
      | nil => exact absurd hh hne
      | cons a l => simp
    simp only [List.length_append, List.length_cons, List.length_nil]
    omega

theorem pad2_ne_of_ge100 {c k : Nat} (hc : 100 ≤ c) (hk : k ≤ 99) :
    pad2 c ≠ pad2 k := by
  intro h
  have h3 : 3 ≤ (pad2 c).length := by
    rw [pad2, if_neg (by omega)]
    show 3 ≤ (String.mk (decDigitsAux (c + 1) c)).length
    rw [String.length_mk]
    exact decDigitsAux_len_ge3 (c + 1) c (by omega) hc
  have h2 := pad2_length_two hk
  rw [h] at h3
  omega

/-! ## Helper lemmas: termination of the collision probe -/

theorem probeStep_iterate (s : Nat) (h1 : 1 ≤ s) (h2 : s ≤ 99) (m : Nat) :
    probeStep^[m] s = (s - 1 + m) % 99 + 1 := by
  induction m with
  | zero => simp; omega
  | succ m ih =>
    rw [Function.iterate_succ_apply', ih, probeStep]
    omega

theorem probeIter_ne_start (s m : Nat) (h1 : 1 ≤ s) (h2 : s ≤ 99)
    (hm1 : 1 ≤ m) (hm2 : m ≤ 98) : probeStep^[m] s ≠ s := by
  rw [probeStep_iterate s h1 h2 m]
  omega

theorem probeIter_bounds (s m : Nat) (h1 : 1 ≤ s) (h2 : s ≤ 99) :
    1 ≤ probeStep^[m] s ∧ probeStep^[m] s ≤ 99 := by
  rw [probeStep_iterate s h1 h2 m]
  omega

theorem probeLoop_run (taken : List String) (s : Nat) (uuid : Nat → Nat)
    (hs1 : 1 ≤ s) (hs2 : s ≤ 99) (d : Nat) (hd : d ≤ 98)
    (hPd : taken.contains (pad2 (probeStep^[d] s)) = false)
    (hmin : ∀ i, i < d → taken.contains (pad2 (probeStep^[i] s)) = true) :
    ∀ fuel j k, j ≤ d → d - j < fuel →
      probeLoop taken s uuid fuel (probeStep^[j] s) k = some (probeStep^[d] s) := by
  intro fuel
  induction fuel with
  | zero => omega
  | succ f ih =>
    intro j k hj hfuel
    by_cases hjd : j = d
    · subst hjd
      rw [probeLoop, if_neg (by rw [hPd]; exact Bool.false_ne_true)]
    · have hjlt : j < d := by omega
      rw [probeLoop, if_pos (hmin j hjlt)]
      have hstep : probeStep (probeStep^[j] s) = probeStep^[j + 1] s := by
        rw [Function.iterate_succ_apply']
      have hne : probeStep^[j + 1] s ≠ s :=
        probeIter_ne_start s (j + 1) hs1 hs2 (by omega) (by omega)
      simp only [hstep, if_neg hne]
      exact ih (j + 1) (k + 1) (by omega) (by omega)

theorem probeLoop_exits (taken : List String) (s : Nat) (uuid : Nat → Nat)
    (hs1 : 1 ≤ s) (hs2 : s ≤ 99)
    (hfree : ∃ v, 1 ≤ v ∧ v ≤ 99 ∧ taken.contains (pad2 v) = false) :
    ∃ t, probeLoop taken s uuid 99 s 0 = some t ∧ 1 ≤ t ∧ t ≤ 99 ∧
      taken.contains (pad2 t) = false := by
  obtain ⟨v, hv1, hv2, hvfree⟩ := hfree
  have hex : ∃ m, taken.contains (pad2 (probeStep^[m] s)) = false := by
    refine ⟨(v + 99 - s) % 99, ?_⟩
    rw [probeStep_iterate s hs1 hs2]
    have hp : (s - 1 + (v + 99 - s) % 99) % 99 + 1 = v := by omega
    rw [hp]
    exact hvfree
  have hmwit : taken.contains (pad2 (probeStep^[(v + 99 - s) % 99] s)) = false := by
    rw [probeStep_iterate s hs1 hs2]
    have hp : (s - 1 + (v + 99 - s) % 99) % 99 + 1 = v := by omega
    rw [hp]
    exact hvfree
  have hd98 : Nat.find hex ≤ 98 :=
    le_trans (Nat.find_min' hex hmwit) (by omega)
  refine ⟨probeStep^[Nat.find hex] s, ?_, ?_, ?_, Nat.find_spec hex⟩
  · refine probeLoop_run taken s uuid hs1 hs2 (Nat.find hex) hd98 (Nat.find_spec hex)
      (fun i hi => ?_) 99 0 0 (by omega) (by omega)
    have := Nat.find_min hex hi
    revert this
    cases taken.contains (pad2 (probeStep^[i] s)) <;> simp
  · exact (probeIter_bounds s (Nat.find hex) hs1 hs2).1
  · exact (probeIter_bounds s (Nat.find hex) hs1 hs2).2

/-- When fewer than 99 of the two-digit probe identifiers `01`–`99` are
registered in a category, some probe value is free. -/
theorem exists_free_of_card_lt (taken : List String)
    (h : ((Finset.Icc 1 99).filter
      (fun v => taken.contains (pad2 v) = true)).card < 99) :
    ∃ v, 1 ≤ v ∧ v ≤ 99 ∧ taken.contains (pad2 v) = false := by
  by_contra hc
  push_neg at hc
  have hall : ∀ v ∈ Finset.Icc 1 99, taken.contains (pad2 v) = true := by
    intro v hv
    rw [Finset.mem_Icc] at hv
    have := hc v hv.1 hv.2
    revert this
    cases taken.contains (pad2 v) <;> simp
  rw [Finset.filter_true_of_mem hall] at h
  simp [Nat.card_Icc] at h

/-! ## Claim C10 -/

/-- Helper for C10 and the registry claims: with a non-empty value and a
free probe slot, `_generate_new_token_id` returns the two-digit zero-padded
identifier of some free probe value. -/
theorem genNewTokenId_probe_exits (hashSeed : String → Nat)
    (uuid : Nat → Nat) (st : GenState) (value category : String)
    (hv : value ≠ "")
    (hcard : ((Finset.Icc 1 99).filter
      (fun v => (takenIds st.registry category).contains (pad2 v) = true)).card < 99) :
    ∃ t counters2, genNewTokenId hashSeed uuid st value category =
        some (pad2 t, counters2) ∧
      1 ≤ t ∧ t ≤ 99 ∧ (pad2 t).length = 2 ∧
      (takenIds st.registry category).contains (pad2 t) = false := by
  obtain ⟨t, hloop, ht1, ht2, htfree⟩ :=
    probeLoop_exits (takenIds st.registry category)
      ((hashSeed value + (alookup st.counters category).getD 1) % 99 + 1) uuid
      (by omega) (by omega) (exists_free_of_card_lt _ hcard)
  refine ⟨t, dictSet st.counters category
      (max ((alookup st.counters category).getD 1) t + 1), ?_, ht1, ht2,
    pad2_length_two (by omega), htfree⟩
  rw [genNewTokenId, if_neg hv]
  dsimp only
  rw [hloop]

/-- Claim C10 (confirmed).  For every call of `_generate_new_token_id` with a
non-empty normalized value, made while the token's category has fewer than
99 of the two-digit identifiers `01`–`99` registered, the collision-probing
loop terminates (the fuel-99 embedding, exact for the source loop, returns
`some`) and the function returns the two-digit zero-padded identifier of
some free probe value. -/
theorem generate_new_token_id_terminates (hashSeed : String → Nat)
    (uuid : Nat → Nat) (st : GenState) (value category : String)
    (hv : value ≠ "")
    (hcard : ((Finset.Icc 1 99).filter
      (fun v => (takenIds st.registry category).contains (pad2 v) = true)).card < 99) :
    ∃ t counters2, genNewTokenId hashSeed uuid st value category =
        some (pad2 t, counters2) ∧
      1 ≤ t ∧ t ≤ 99 ∧ (pad2 t).length = 2 ∧
      (takenIds st.registry category).contains (pad2 t) = false :=
  genNewTokenId_probe_exits hashSeed uuid st value category hv hcard

/-- Witness for C10 at a concrete input: the empty registry's `task`
category has no identifiers registered, and the call returns a two-digit
identifier. -/
theorem generate_new_token_id_terminates_witness :
    (("initialize_system" : String) ≠ "" ∧
      ((Finset.Icc 1 99).filter
        (fun v => (takenIds emptyState.registry "task").contains (pad2 v) = true)).card
        < 99) ∧
    ∃ t counters2, genNewTokenId (fun _ => 7) (fun _ => 3) emptyState
        "initialize_system" "task" = some (pad2 t, counters2) ∧
      1 ≤ t ∧ t ≤ 99 ∧ (pad2 t).length = 2 ∧
      (takenIds emptyState.registry "task").contains (pad2 t) = false :=
  ⟨⟨by decide, by decide⟩,
    generate_new_token_id_terminates (fun _ => 7) (fun _ => 3)
      emptyState "initialize_system" "task" (by decide) (by decide)⟩

/-! ## Claim C9 -/

/-- `genNewTokenId` succeeds (for any value) when the category has a free
two-digit probe slot; the empty-value branch bypasses the probe loop. -/
theorem genNewTokenId_some (hashSeed : String → Nat) (uuid : Nat → Nat)
    (st : GenState) (value category : String)
    (hcard : ((Finset.Icc 1 99).filter
      (fun v => (takenIds st.registry category).contains (pad2 v) = true)).card < 99) :
    ∃ tid counters2,
      genNewTokenId hashSeed uuid st value category = some (tid, counters2) := by
  by_cases hv : value = ""
  · subst hv
    exact ⟨_, _, by rw [genNewTokenId, if_pos rfl]⟩
  · obtain ⟨t, c2, h, _⟩ := genNewTokenId_probe_exits hashSeed uuid st
      value category hv hcard
    exact ⟨_, _, h⟩

/-- After `regStore`, the stored identifier is found under
`(category, value)`. -/
theorem regStore_lookup (reg : Registry) (c v t : String) :
    (alookup (regStore reg c v t) c).bind (fun m => alookup m v) = some t := by
  unfold regStore
  cases h : alookup reg c with
  | some m =>
    rw [alookup_dictSet_self]
    simp [alookup_dictSet_self]
  | none =>
    rw [alookup_append_of_none _ h]
    simp [alookup, alookup_dictSet_self]

/-- The fresh branch of `generate_token_id`, given the generated id. -/
theorem generateFresh_spec (hashSeed : String → Nat) (uuid : Nat → Nat)
    (st : GenState) (nv nc pre tid : String) (counters1 : List (String × Nat))
    (h : genNewTokenId hashSeed uuid st nv nc = some (tid, counters1)) :
    generateTokenId.generateFresh hashSeed uuid st nv nc pre =
      some (pre ++ tid,
        { registry := regStore st.registry nc nv tid
          counters :=
            match alookup counters1 nc with
            | some cur => dictSet counters1 nc (max cur (strToNat tid + 1))
            | none => counters1 }) := by
  rw [generateTokenId.generateFresh, h]

/-- Claim C9 (confirmed).  For every value and every category whose lowercase
form is not one of the 13 known categories (and whose registry entry still
has a free two-digit slot, which guarantees the probe terminates),
`generate_token_id` does not fail: it returns a token id carrying the
default directive letter `D`, and the normalized value is stored under the
unknown lowercase category name in the registry. -/
theorem generate_token_id_unknown_category (hashSeed : String → Nat)
    (uuid : Nat → Nat) (st : GenState) (value category : String)
    (hcat : lowerStr category ∉ categoryNames)
    (hcard : ((Finset.Icc 1 99).filter
      (fun v => (takenIds st.registry (lowerStr category)).contains (pad2 v) = true)).card
      < 99) :
    ∃ tid st2, generateTokenId hashSeed uuid st value category =
        some ("D" ++ tid, st2) ∧
      (alookup st2.registry (lowerStr category)).bind
        (fun m => alookup m (normalizeValue value)) = some tid := by
  have hpre : alookup categoryPrefixes (lowerStr category) = none :=
    alookup_eq_none_of_not_mem hcat
  cases hra : alookup st.registry (lowerStr category) with
  | some m =>
    cases hmv : alookup m (normalizeValue value) with
    | some tokenId =>
      refine ⟨tokenId, st, ?_, ?_⟩
      · rw [generateTokenId, hpre, hra]
        dsimp only
        rw [hmv]
        rfl
      · rw [hra]
        exact hmv
    | none =>
      obtain ⟨tid, counters1, hgen⟩ :=
        genNewTokenId_some hashSeed uuid st (normalizeValue value)
          (lowerStr category) hcard
      refine ⟨tid,
        { registry := regStore st.registry (lowerStr category)
            (normalizeValue value) tid
          counters :=
            match alookup counters1 (lowerStr category) with
            | some cur =>
              dictSet counters1 (lowerStr category) (max cur (strToNat tid + 1))
            | none => counters1 }, ?_, ?_⟩
      · rw [generateTokenId, hpre, hra]
        dsimp only
        rw [hmv]
        show generateTokenId.generateFresh hashSeed uuid st
          (normalizeValue value) (lowerStr category) "D" = _
        rw [generateFresh_spec hashSeed uuid st _ _ _ _ _ hgen]
      · exact regStore_lookup st.registry (lowerStr category)
          (normalizeValue value) tid
  | none =>
    obtain ⟨tid, counters1, hgen⟩ :=
      genNewTokenId_some hashSeed uuid st (normalizeValue value)
        (lowerStr category) hcard
    refine ⟨tid,
      { registry := regStore st.registry (lowerStr category)
          (normalizeValue value) tid
        counters :=
          match alookup counters1 (lowerStr category) with
          | some cur =>
            dictSet counters1 (lowerStr category) (max cur (strToNat tid + 1))
          | none => counters1 }, ?_, ?_⟩
    · rw [generateTokenId, hpre, hra]
      show generateTokenId.generateFresh hashSeed uuid st
        (normalizeValue value) (lowerStr category) "D" = _
      rw [generateFresh_spec hashSeed uuid st _ _ _ _ _ hgen]
    · exact regStore_lookup st.registry (lowerStr category)
        (normalizeValue value) tid

/-- Witness for C9: the category `"widget"` is unknown; from the empty
registry the call returns a `D`-prefixed id and stores the value under
`"widget"`. -/
theorem generate_token_id_unknown_category_witness :
    (lowerStr "widget" ∉ categoryNames ∧
      ((Finset.Icc 1 99).filter
        (fun v => (takenIds emptyState.registry (lowerStr "widget")).contains (pad2 v)
          = true)).card < 99) ∧
    ∃ tid st2, generateTokenId (fun _ => 5) (fun _ => 2) emptyState
        "Make Gadget" "widget" = some ("D" ++ tid, st2) ∧
      (alookup st2.registry (lowerStr "widget")).bind
        (fun m => alookup m (normalizeValue "Make Gadget")) = some tid :=
  ⟨⟨by decide, by decide⟩,
    generate_token_id_unknown_category (fun _ => 5) (fun _ => 2) emptyState
      "Make Gadget" "widget" (by decide) (by decide)⟩

/-! ## Claim C6 -/

/-- Claim C6 (confirmed).  Whatever the SHA-256 seed and UUID draws,
`generate_token_id("initialize_system", "system")` starting from the empty
registry returns a 3-character string `S` followed by two digits, and every
subsequent call with the same pair — on the resulting state, and on the
state reloaded from the persisted store (the JSON document is the registry
map itself, with counters re-derived by
`_initialize_category_counters`) — returns the identical string and leaves
the state unchanged. -/
theorem generate_token_id_deterministic (hashSeed : String → Nat)
    (uuid : Nat → Nat) : ∃ n st2,
      1 ≤ n ∧ n ≤ 99 ∧
      generateTokenId hashSeed uuid emptyState "initialize_system" "system" =
        some ("S" ++ pad2 n, st2) ∧
      ("S" ++ pad2 n).length = 3 ∧
      ("S" ++ pad2 n).toList.take 1 = ['S'] ∧
      (("S" ++ pad2 n).toList.drop 1).all Char.isDigit = true ∧
      generateTokenId hashSeed uuid st2 "initialize_system" "system" =
        some ("S" ++ pad2 n, st2) ∧
      generateTokenId hashSeed uuid (reloadState st2) "initialize_system"
        "system" = some ("S" ++ pad2 n, reloadState st2) := by
  have hn99 : (hashSeed "initialize_system" + 1) % 99 + 1 ≤ 99 := by omega
  refine ⟨(hashSeed "initialize_system" + 1) % 99 + 1, _, by omega, hn99,
    rfl, ?_, ?_, ?_, rfl, rfl⟩
  · rw [String.length_append, pad2_length_two hn99]
    rfl
  · rfl
  · have hdata : ("S" ++ pad2 ((hashSeed "initialize_system" + 1) % 99 + 1)).toList
        = 'S' :: (pad2 ((hashSeed "initialize_system" + 1) % 99 + 1)).toList := by
      show (("S" : String) ++ _).data = _
      rw [String.data_append]
      rfl
    rw [hdata]
    simp only [List.drop_succ_cons, List.drop_zero]
    exact (pad2_props _ (by simp [Finset.mem_Icc]; omega)).2

/-! ## Claim C2: supporting lemmas -/

theorem string_mk_data (s : String) : String.mk s.data = s := rfl

theorem contains_true_iff (l : List String) (x : String) :
    l.contains x = true ↔ x ∈ l := by
  have h := contains_false_iff l x
  cases hc : l.contains x
  · rw [hc] at h
    simp_all
  · simp_all

/-- With reverse-unique identifiers, the reverse search finds the key of a
binding. -/
theorem reverseLookup_of_nodup {m : List (String × String)} {k v : String}
    (hnd : (m.map Prod.snd).Nodup) (hmem : (k, v) ∈ m) :
    getValueFromToken.reverseLookup m v = some k := by
  induction m with
  | nil => simp at hmem
  | cons p rest ih =>
    obtain ⟨pk, pv⟩ := p
    rw [List.map_cons, List.nodup_cons] at hnd
    rw [getValueFromToken.reverseLookup]
    rcases List.mem_cons.mp hmem with heq | hmem2
    · cases heq
      simp
    · by_cases hv : pv = v
      · subst hv
        exact absurd (List.mem_map_of_mem Prod.snd hmem2) hnd.1
      · rw [if_neg hv]
        exact ih hnd.2 hmem2

theorem reverseLookup_append_of_not_mem {m : List (String × String)}
    {tid : String} (h : tid ∉ m.map Prod.snd) (l2 : List (String × String)) :
    getValueFromToken.reverseLookup (m ++ l2) tid =
      getValueFromToken.reverseLookup l2 tid := by
  induction m with
  | nil => rfl
  | cons p rest ih =>
    rw [List.map_cons, List.mem_cons] at h
    push_neg at h
    have h1 : ¬(p.2 = tid) := fun hh => h.1 hh.symm
    rw [List.cons_append, getValueFromToken.reverseLookup]
    simp only [if_neg h1]
    exact ih h.2

/-- Resolution of a `prefix ++ identifier` token whose category is found by
prefix search and whose identifier reverse-resolves in that category. -/
theorem resolve_after_store (reg : Registry) (category pre tid nv : String)
    (m : List (String × String)) (c : Char) (hc : pre.data = [c])
    (hfind : getValueFromToken.findCategoryByCode categoryPrefixes pre = some category)
    (hm : alookup reg category = some m)
    (hrev : getValueFromToken.reverseLookup m tid = some nv)
    (htid : tid.data ≠ []) :
    getValueFromToken reg (pre ++ tid) = (some nv, some category) := by
  obtain ⟨d, ds, hds⟩ : ∃ d ds, tid.data = d :: ds := by
    cases h : tid.data with
    | nil => exact absurd h htid
    | cons d ds => exact ⟨d, ds, rfl⟩
  have htl : (pre ++ tid).toList = c :: d :: ds := by
    show (pre ++ tid).data = _
    rw [String.data_append, hc, hds]
    rfl
  rw [getValueFromToken, htl]
  dsimp only
  rw [show String.mk [c] = pre from by rw [← hc]]
  rw [show String.mk (d :: ds) = tid from by rw [← hds]]
  rw [hfind]
  dsimp only
  rw [hm]
  dsimp only
  rw [hrev]

theorem pad2_data_ne_nil (t : Nat) : (pad2 t).data ≠ [] := by
  intro h
  have h2 := pad2_length_ge2 t
  rw [show (pad2 t).length = (pad2 t).data.length from rfl, h] at h2
  simp at h2

/-- The category table facts needed for the amended bijection: every
category name other than `security` is lowercase, carries a one-letter
prefix, and is the first category found by reverse prefix search. -/
theorem categoryTable_facts : ∀ cat ∈ categoryNames, cat = "security" ∨
    (alookup categoryPrefixes cat = some ((alookup categoryPrefixes cat).getD "D") ∧
     ((alookup categoryPrefixes cat).getD "D").data.length = 1 ∧
     getValueFromToken.findCategoryByCode categoryPrefixes
       ((alookup categoryPrefixes cat).getD "D") = some cat ∧
     lowerStr cat = cat) := by decide

/-- Fewer than 99 probe identifiers are taken when a category map has at
most 98 entries. -/
theorem filter_card_lt_of_len (m : List (String × String)) (hlen : m.length ≤ 98) :
    ((Finset.Icc 1 99).filter
      (fun v => (m.map Prod.snd).contains (pad2 v) = true)).card < 99 := by
  set f := (Finset.Icc 1 99).filter
    (fun v => (m.map Prod.snd).contains (pad2 v) = true) with hf
  have hinj : Set.InjOn pad2 f := by
    intro a ha b hb hab
    have ha2 := Finset.mem_Icc.mp (Finset.mem_filter.mp ha).1
    have hb2 := Finset.mem_Icc.mp (Finset.mem_filter.mp hb).1
    exact pad2_inj (by omega) (by omega) hab
  have h1 : (f.image pad2).card = f.card := Finset.card_image_of_injOn hinj
  have h2 : f.image pad2 ⊆ (m.map Prod.snd).toFinset := by
    intro x hx
    obtain ⟨v, hv, rfl⟩ := Finset.mem_image.mp hx
    rw [List.mem_toFinset]
    exact (contains_true_iff _ _).mp (Finset.mem_filter.mp hv).2
  have h3 : f.card ≤ (m.map Prod.snd).length :=
    h1 ▸ le_trans (Finset.card_le_card h2) (List.toFinset_card_le _)
  rw [List.length_map] at h3
  omega

/-- The counter's own two-digit form is never among identifiers all below
the counter. -/
theorem pad2_counter_free (m : List (String × String)) (counter : Nat)
    (hids : ∀ p ∈ m, ∃ k, 1 ≤ k ∧ k ≤ 99 ∧ p.2 = pad2 k ∧ k < counter) :
    pad2 counter ∉ m.map Prod.snd := by
  intro hmem
  obtain ⟨p, hp, hpe⟩ := List.mem_map.mp hmem
  obtain ⟨k, hk1, hk99, hke, hklt⟩ := hids p hp
  rw [hke] at hpe
  by_cases hc : counter ≤ 99
  · have := pad2_inj hk99 hc hpe
    omega
  · exact absurd hpe.symm (pad2_ne_of_ge100 (by omega) hk99)

/-- In a well-formed category map, `_generate_new_token_id` yields an
identifier not yet present in the map. -/
theorem genNewTokenId_fresh (hashSeed : String → Nat) (uuid : Nat → Nat)
    (st : GenState) (value category : String) (m : List (String × String))
    (hm : alookup st.registry category = some m)
    (hids : ∀ p ∈ m, ∃ k, 1 ≤ k ∧ k ≤ 99 ∧ p.2 = pad2 k ∧ k < catCounter st category)
    (hlen : m.length ≤ 98) :
    ∃ t counters2, genNewTokenId hashSeed uuid st value category =
      some (pad2 t, counters2) ∧ pad2 t ∉ m.map Prod.snd := by
  have htaken : takenIds st.registry category = m.map Prod.snd := by
    rw [takenIds, hm]
  by_cases hv : value = ""
  · subst hv
    refine ⟨catCounter st category,
      dictSet st.counters category
        (max (catCounter st category) (catCounter st category) + 1), ?_,
      pad2_counter_free m _ hids⟩
    rw [genNewTokenId, if_pos rfl]
    rfl
  · obtain ⟨t, c2, hgen, _, _, _, hfree⟩ :=
      genNewTokenId_probe_exits hashSeed uuid st value category hv
        (by rw [htaken]; exact filter_card_lt_of_len m hlen)
    rw [htaken] at hfree
    exact ⟨t, c2, hgen, (contains_false_iff _ _).mp hfree⟩

/-- `_generate_new_token_id` succeeds when the category is absent from the
registry (the collision loop has nothing to collide with). -/
theorem genNewTokenId_of_absent (hashSeed : String → Nat) (uuid : Nat → Nat)
    (st : GenState) (value category : String)
    (hm : alookup st.registry category = none) :
    ∃ t counters2, genNewTokenId hashSeed uuid st value category =
      some (pad2 t, counters2) := by
  have htaken : takenIds st.registry category = [] := by
    rw [takenIds, hm]
  by_cases hv : value = ""
  · subst hv
    refine ⟨catCounter st category,
      dictSet st.counters category
        (max (catCounter st category) (catCounter st category) + 1), ?_⟩
    rw [genNewTokenId, if_pos rfl]
    rfl
  · obtain ⟨t, c2, hgen, _⟩ :=
      genNewTokenId_probe_exits hashSeed uuid st value category hv
        (by rw [htaken]; simp)
    exact ⟨t, c2, hgen⟩

/-- The bijection core, for a category whose prefix search returns the
category itself. -/
theorem token_bijection_core (hashSeed : String → Nat) (uuid : Nat → Nat)
    (st : GenState) (value category pre : String)
    (hpre : alookup categoryPrefixes category = some pre)
    (hlen1 : pre.data.length = 1)
    (hfind : getValueFromToken.findCategoryByCode categoryPrefixes pre = some category)
    (hlow : lowerStr category = category)
    (hinv : RegInv st category) :
    ∃ tok st2, generateTokenId hashSeed uuid st value category = some (tok, st2) ∧
      getValueFromToken st2.registry tok =
        (some (normalizeValue value), some category) := by
  obtain ⟨c, hc⟩ : ∃ c, pre.data = [c] := by
    cases h : pre.data with
    | nil => rw [h] at hlen1; simp at hlen1
    | cons a l =>
      cases l with
      | nil => exact ⟨a, rfl⟩
      | cons b l2 => rw [h] at hlen1; simp at hlen1
  cases hra : alookup st.registry category with
  | some m =>
    have hinv2 : (m.map Prod.snd).Nodup ∧ m.length ≤ 98 ∧
        ∀ p ∈ m, ∃ k, 1 ≤ k ∧ k ≤ 99 ∧ p.2 = pad2 k ∧ k < catCounter st category := by
      rw [RegInv, hra] at hinv
      exact hinv
    cases hmv : alookup m (normalizeValue value) with
    | some tid =>
      obtain ⟨k, hk1, hk99, hke, hklt⟩ :=
        hinv2.2.2 (normalizeValue value, tid) (alookup_mem hmv)
      have hke2 : tid = pad2 k := hke
      refine ⟨pre ++ tid, st, ?_, ?_⟩
      · rw [generateTokenId, hlow, hpre, hra]
        dsimp only
        rw [hmv]
        rfl
      · exact resolve_after_store st.registry category pre tid
          (normalizeValue value) m c hc hfind hra
          (reverseLookup_of_nodup hinv2.1 (alookup_mem hmv))
          (by rw [hke2]; exact pad2_data_ne_nil k)
    | none =>
      obtain ⟨t, counters2, hgen, hfree⟩ := genNewTokenId_fresh hashSeed uuid st
        (normalizeValue value) category m hra hinv2.2.2 hinv2.2.1
      refine ⟨pre ++ pad2 t,
        { registry := regStore st.registry category (normalizeValue value) (pad2 t)
          counters :=
            match alookup counters2 category with
            | some cur => dictSet counters2 category (max cur (strToNat (pad2 t) + 1))
            | none => counters2 }, ?_, ?_⟩
      · rw [generateTokenId, hlow, hpre, hra]
        dsimp only
        rw [hmv]
        show generateTokenId.generateFresh hashSeed uuid st
          (normalizeValue value) category pre = _
        rw [generateFresh_spec _ _ _ _ _ _ _ _ hgen]
      · have hm2 : alookup (regStore st.registry category
            (normalizeValue value) (pad2 t)) category =
            some (dictSet m (normalizeValue value) (pad2 t)) := by
          rw [regStore, hra]
          exact alookup_dictSet_self _ _ _
        have hds : dictSet m (normalizeValue value) (pad2 t) =
            m ++ [(normalizeValue value, pad2 t)] := dictSet_of_none _ hmv
        have hrev : getValueFromToken.reverseLookup
            (dictSet m (normalizeValue value) (pad2 t)) (pad2 t) =
            some (normalizeValue value) := by
          rw [hds, reverseLookup_append_of_not_mem hfree]
          simp [getValueFromToken.reverseLookup]
        exact resolve_after_store _ category pre (pad2 t) (normalizeValue value)
          _ c hc hfind hm2 hrev (pad2_data_ne_nil t)
  | none =>
    obtain ⟨t, counters2, hgen⟩ := genNewTokenId_of_absent hashSeed uuid st
      (normalizeValue value) category hra
    refine ⟨pre ++ pad2 t,
      { registry := regStore st.registry category (normalizeValue value) (pad2 t)
        counters :=
          match alookup counters2 category with
          | some cur => dictSet counters2 category (max cur (strToNat (pad2 t) + 1))
          | none => counters2 }, ?_, ?_⟩
    · rw [generateTokenId, hlow, hpre, hra]
      show generateTokenId.generateFresh hashSeed uuid st
        (normalizeValue value) category pre = _
      rw [generateFresh_spec _ _ _ _ _ _ _ _ hgen]
    · have hm2 : alookup (regStore st.registry category
          (normalizeValue value) (pad2 t)) category =
          some [(normalizeValue value, pad2 t)] := by
        rw [regStore, hra]
        rw [alookup_append_of_none _ hra]
        simp [alookup]
      have hrev : getValueFromToken.reverseLookup
          [(normalizeValue value, pad2 t)] (pad2 t) =
          some (normalizeValue value) := by
        simp [getValueFromToken.reverseLookup]
      exact resolve_after_store _ category pre (pad2 t) (normalizeValue value)
        _ c hc hfind hm2 hrev (pad2_data_ne_nil t)

/-- Claim C2 (corrected: the claim fails for category `security`, see
`token_bijection_counterexample`).  For every value and every documented
category **other than `security`**, on any state satisfying the
well-formedness invariant `RegInv`, resolving the token returned by
`generate_token_id(value, category)` on the resulting registry gives back
exactly `(normalized value, category)`. -/
theorem token_bijection_amended (hashSeed : String → Nat) (uuid : Nat → Nat)
    (st : GenState) (value category : String)
    (hcat : category ∈ categoryNames) (hsec : category ≠ "security")
    (hinv : RegInv st category) :
    ∃ tok st2, generateTokenId hashSeed uuid st value category = some (tok, st2) ∧
      getValueFromToken st2.registry tok =
        (some (normalizeValue value), some category) := by
  rcases categoryTable_facts category hcat with h | ⟨hpre, hlen1, hfind, hlow⟩
  · exact absurd h hsec
  exact token_bijection_core hashSeed uuid st value category
    ((alookup categoryPrefixes category).getD "D") hpre hlen1 hfind hlow hinv

/-- Witness for the amended C2 at a concrete input: category `task` on the
empty registry. -/
theorem token_bijection_amended_witness :
    (("task" : String) ∈ categoryNames ∧ ("task" : String) ≠ "security" ∧
      RegInv emptyState "task") ∧
    ∃ tok st2, generateTokenId (fun _ => 11) (fun _ => 4) emptyState
        "Retrieve Customer Data" "task" = some (tok, st2) ∧
      getValueFromToken st2.registry tok =
        (some (normalizeValue "Retrieve Customer Data"), some "task") :=
  ⟨⟨by decide, by decide, by rw [RegInv]; exact ⟨List.nodup_nil, by simp, by simp⟩⟩,
    token_bijection_amended (fun _ => 11) (fun _ => 4) emptyState
      "Retrieve Customer Data" "task" (by decide) (by decide)
      (by rw [RegInv]; exact ⟨List.nodup_nil, by simp, by simp⟩)⟩

/-- Claim C2 counterexample.  For category `security` the bijection fails on
the very first token: from the empty registry,
`generate_token_id("x", "security")` returns an `S`-prefixed token, and
resolving it answers `(None, None)` — the prefix search finds `system`
first (both categories share `S`) and the `system` map does not contain the
value — not `(normalized value, "security")`. -/
theorem token_bijection_counterexample :
    (match generateTokenId (fun _ => 0) (fun _ => 0) emptyState "x" "security" with
      | some (tok, st2) => getValueFromToken st2.registry tok
      | none => (some "", some "")) = (none, none) ∧
    ((none, none) : Option String × Option String) ≠
      (some (normalizeValue "x"), some "security") :=
  ⟨by decide, by decide⟩

/-! ## Claim C8 -/

/-- No category carries the prefix when every table entry differs from it. -/
theorem findCategoryByCode_none (l : List (String × String)) (pre : String)
    (h : ∀ pr ∈ l, pr.2 ≠ pre) :
    getValueFromToken.findCategoryByCode l pre = none := by
  induction l with
  | nil => rfl
  | cons p rest ih =>
    rw [getValueFromToken.findCategoryByCode,
      if_neg (h p (List.mem_cons_self p rest))]
    exact ih (fun pr hm => h pr (List.mem_cons_of_mem p hm))

/-- Claim C8 (confirmed).  For every registry and every malformed token
string — empty or shorter than two characters, or whose first character is
not one of the category prefix letters — `get_value_from_token` returns the
explicit not-found pair `(None, None)`.  The embedding is a total function:
no branch of the source can raise (the length guard precedes the indexing,
and the remaining steps are dictionary scans). -/
theorem get_value_from_token_malformed (reg : Registry) (token : String)
    (h : token.length < 2 ∨ ∀ pr ∈ categoryPrefixes, pr.2.data ≠ token.data.take 1) :
    getValueFromToken reg token = (none, none) := by
  cases htl : token.data with
  | nil =>
    have htl2 : token.toList = [] := htl
    rw [getValueFromToken, htl2]
  | cons c1 rest =>
    cases rest with
    | nil =>
      have htl2 : token.toList = [c1] := htl
      rw [getValueFromToken, htl2]
    | cons c2 rest2 =>
      have htl2 : token.toList = c1 :: c2 :: rest2 := htl
      rcases h with hlen | hpre
      · exfalso
        have : token.length = token.data.length := rfl
        rw [htl] at this
        simp at this
        omega
      · have hpre2 : ∀ pr ∈ categoryPrefixes, pr.2 ≠ String.mk [c1] := by
          intro pr hm heq
          have := hpre pr hm
          rw [heq, htl] at this
          simp at this
        have hfind : getValueFromToken.findCategoryByCode categoryPrefixes
            (String.mk [c1]) = none :=
          findCategoryByCode_none _ _ hpre2
        rw [getValueFromToken, htl2]
        dsimp only
        rw [hfind]

/-- Witness for C8: the token `"Z9"` has an unknown prefix letter and
resolves to `(None, None)` on the empty registry. -/
theorem get_value_from_token_malformed_witness :
    ((("Z9" : String).length < 2 ∨
      ∀ pr ∈ categoryPrefixes, pr.2.data ≠ ("Z9" : String).data.take 1)) ∧
    getValueFromToken emptyState.registry "Z9" = (none, none) :=
  ⟨Or.inr (by decide),
    get_value_from_token_malformed emptyState.registry "Z9" (Or.inr (by decide))⟩

/-! ## Claim C4 -/

/-- The shunting-yard loop maps a pure token stream to the same tokens in
order: tokens go straight to the output queue and the operator stack stays
empty. -/
theorem syAux_tokens (vs : List String) :
    ∀ n i outq, vs.length - i ≤ n →
      syAux (vs.map Elem.tok) i outq [] =
        outq ++ ((vs.drop i).map OutElem.tok) := by
  intro n
  induction n with
  | zero =>
    intro i outq hn
    rw [syAux, dif_neg (by simp; omega)]
    rw [List.drop_eq_nil_of_le (by omega)]
    simp
  | succ n ih =>
    intro i outq hn
    by_cases hi : i < vs.length
    · rw [syAux, dif_pos (by simp; omega)]
      simp only [List.getElem_map]
      rw [ih (i + 1) (outq ++ [OutElem.tok vs[i]]) (by omega)]
      have h2 : i < (List.map OutElem.tok vs).length := by simp [hi]
      simp only [List.map_drop]
      rw [List.drop_eq_getElem_cons h2]
      simp
    · rw [syAux, dif_neg (by simp; omega)]
      rw [List.drop_eq_nil_of_le (by omega)]
      simp

/-- The build loop over a pure token queue pushes every value; the result
is Python's `stack[0]`, the bottom of the final stack. -/
theorem buildLoop_tokens (vs : List String) :
    ∀ stack, buildLoop (vs.map OutElem.tok) stack =
      ((vs.reverse ++ stack).getLast?).getD "" := by
  induction vs with
  | nil =>
    intro stack
    simp [buildLoop]
  | cons v rest ih =>
    intro stack
    simp only [List.map_cons, buildLoop]
    rw [ih (v :: stack)]
    simp

theorem buildExpression_tokens (vs : List String) :
    buildExpression (vs.map OutElem.tok) = (vs.head?).getD "" := by
  rw [buildExpression, buildLoop_tokens]
  rw [List.append_nil, List.getLast?_reverse]

/-- Claim C4 (corrected: the multi-token part of the claim fails, see
`synthesize_concat_counterexample`).  For every semantic structure with a
non-empty token list and no relationships, `synthesize` returns the **first**
token's value: the shunting-yard pass forwards the tokens, the build loop
pushes them all, and the final result is `stack[0]`, the bottom of the
stack.  For a single-token structure this is exactly that token's value. -/
theorem synthesize_tokens_only (tms : List (String × SemToken)) (t : SemToken)
    (ts : List SemToken) :
    synthesize ⟨tms, some ⟨[], t :: ts, []⟩⟩ = (t.token).getD "" := by
  have hconv : convertToExpressionElements ⟨[], t :: ts, []⟩ tms =
      ((t :: ts).map (fun x => (x.token).getD "")).map Elem.tok := by
    rw [convertToExpressionElements]
    simp
  have hsy : applyShuntingYard
      (((t :: ts).map (fun x => (x.token).getD "")).map Elem.tok) =
      ((t :: ts).map (fun x => (x.token).getD "")).map OutElem.tok := by
    rw [applyShuntingYard,
      syAux_tokens ((t :: ts).map (fun x => (x.token).getD ""))
        ((t :: ts).map (fun x => (x.token).getD "")).length 0 [] (by omega)]
    simp
  rw [synthesize]
  dsimp only
  rw [hconv, if_neg (by simp), hsy, buildExpression_tokens]
  simp

/-- Claim C4 counterexample.  A structure with two tokens and no
relationships renders to the first token's value `"T12"`, not to the
claimed concatenation `"T12T13"`. -/
theorem synthesize_concat_counterexample :
    synthesize ⟨[], some ⟨[], [⟨none, some "T12"⟩, ⟨none, some "T13"⟩], []⟩⟩ = "T12" ∧
    ("T12" : String) ≠ "T12" ++ "T13" := by
  constructor
  · have hconv : convertToExpressionElements
        ⟨[], [⟨none, some "T12"⟩, ⟨none, some "T13"⟩], []⟩ [] =
        [Elem.tok "T12", Elem.tok "T13"] := by
      rw [convertToExpressionElements]
      simp
    have hsy : applyShuntingYard [Elem.tok "T12", Elem.tok "T13"] =
        [OutElem.tok "T12", OutElem.tok "T13"] := by
      have h := syAux_tokens ["T12", "T13"] 2 0 [] (by simp)
      simpa [applyShuntingYard] using h
    have hbe : buildExpression [OutElem.tok "T12", OutElem.tok "T13"] = "T12" := by
      have h := buildExpression_tokens ["T12", "T13"]
      simpa using h
    rw [synthesize]
    dsimp only
    rw [hconv, if_neg (by simp), hsy, hbe]
  · decide

/-! ## Claim C3 -/

/-- Contexts without an applicable modifier are skipped by the scan. -/
theorem scanStack_append (pre rest : List PyVal) (token td : PyVal)
    (h : ∀ c2 ∈ pre, ctxModifierFor token c2 = none) :
    scanStack (pre ++ rest) token td = scanStack rest token td := by
  induction pre with
  | nil => rfl
  | cons c2 pre2 ih =>
    rw [List.cons_append, scanStack, h c2 (List.mem_cons_self c2 pre2)]
    exact ih (fun c3 hm => h c3 (List.mem_cons_of_mem c2 hm))

/-- Claim C3 (corrected: the claim's innermost-first order fails, see
`resolve_innermost_counterexample`).  Provided the current (innermost)
context is truthy — otherwise the `if not active_context` guard returns
the base definition — `resolve_in_context` iterates the Python stack list
from index 0, i.e. from the **bottom** of the stack: when the token's
definition has no `contextBehaviors` entry, the context whose
`tokenModifiers` entry applies and that is **outermost** among the
applicable ones (every context below it being inapplicable) supplies the
modifier, regardless of what is stacked above it. -/
theorem resolve_first_applicable (pre post : List PyVal)
    (ctx token tokenDictionary modifier : PyVal)
    (happ : ctxModifierFor token ctx = some modifier)
    (hpre : ∀ c2 ∈ pre, ctxModifierFor token c2 = none)
    (hcb : pget (baseTokenDef token tokenDictionary) "contextBehaviors" = none)
    (htop : ∀ b, (ctx :: post).getLast? = some b → pyTruthy b = true) :
    resolveInContext (pre ++ ctx :: post) token tokenDictionary =
      applyContextModifier (baseTokenDef token tokenDictionary) modifier := by
  rw [resolveInContext]
  dsimp only
  obtain ⟨a, ha⟩ : ∃ a, (ctx :: post).getLast? = some a := by
    cases hgl : (ctx :: post).getLast? with
    | some a => exact ⟨a, rfl⟩
    | none => simp at hgl
  have hlast : (pre ++ ctx :: post).getLast? = some a := by
    rw [List.getLast?_append, ha]
    rfl
  rw [hlast]
  dsimp only
  have hcond : ¬(pyTruthy a = false) := by rw [htop a ha]; simp
  rw [if_neg hcond]
  rw [hcb]
  dsimp only
  rw [scanStack_append pre (ctx :: post) token _ hpre, scanStack, happ]

/-- Witness for the amended C3: a stack `[outer, mid, inner]` with a
truthy inner context where only `mid` carries an applicable `task`
modifier resolves through `mid`. -/
theorem resolve_first_applicable_witness :
    (ctxModifierFor
        (.pdict [("value", .pstr "T12"), ("categoryCode", .pstr "T")])
        (.pdict [("id", .pstr "MID"),
          ("definition", .pdict [("tokenModifiers",
            .pdict [("T", .pdict [("override", .pstr "MIDVAL")])])])]) =
      some (.pdict [("override", .pstr "MIDVAL")]) ∧
     (∀ c2 ∈ [(.pdict [("id", .pstr "OUTER")] : PyVal)],
        ctxModifierFor
          (.pdict [("value", .pstr "T12"), ("categoryCode", .pstr "T")]) c2 = none) ∧
     pget (baseTokenDef
        (.pdict [("value", .pstr "T12"), ("categoryCode", .pstr "T")])
        (.pdict [("T12", .pdict [("name", .pstr "base")])])) "contextBehaviors" = none ∧
     (∀ b, ([.pdict [("id", .pstr "MID"),
          ("definition", .pdict [("tokenModifiers",
            .pdict [("T", .pdict [("override", .pstr "MIDVAL")])])])],
         .pdict [("id", .pstr "INNER")]] : List PyVal).getLast? = some b →
        pyTruthy b = true)) ∧
    resolveInContext
      [.pdict [("id", .pstr "OUTER")],
       .pdict [("id", .pstr "MID"),
         ("definition", .pdict [("tokenModifiers",
           .pdict [("T", .pdict [("override", .pstr "MIDVAL")])])])],
       .pdict [("id", .pstr "INNER")]]
      (.pdict [("value", .pstr "T12"), ("categoryCode", .pstr "T")])
      (.pdict [("T12", .pdict [("name", .pstr "base")])]) =
      applyContextModifier
        (baseTokenDef
          (.pdict [("value", .pstr "T12"), ("categoryCode", .pstr "T")])
          (.pdict [("T12", .pdict [("name", .pstr "base")])]))
        (.pdict [("override", .pstr "MIDVAL")]) :=
  ⟨⟨rfl, by intro c2 hc; rw [List.mem_singleton] at hc; subst hc; rfl, rfl,
    by intro b hb; cases Option.some.inj hb; rfl⟩,
    resolve_first_applicable
      [.pdict [("id", .pstr "OUTER")]]
      [.pdict [("id", .pstr "INNER")]]
      (.pdict [("id", .pstr "MID"),
        ("definition", .pdict [("tokenModifiers",
          .pdict [("T", .pdict [("override", .pstr "MIDVAL")])])])])
      (.pdict [("value", .pstr "T12"), ("categoryCode", .pstr "T")])
      (.pdict [("T12", .pdict [("name", .pstr "base")])])
      (.pdict [("override", .pstr "MIDVAL")])
      rfl
      (by intro c2 hc; rw [List.mem_singleton] at hc; subst hc; rfl)
      rfl
      (by intro b hb; cases Option.some.inj hb; rfl)⟩

/-- Claim C3 counterexample.  With two active contexts both carrying an
applicable `tokenModifiers` entry for the token's category, the stack
`[outer, inner]` resolves to the **outermost** context's override `OUTER`,
while applying the innermost context's modifier (as the claim demands)
would yield `INNER` — a different definition. -/
theorem resolve_innermost_counterexample :
    resolveInContext
      [.pdict [("id", .pstr "X"),
        ("definition", .pdict [("tokenModifiers",
          .pdict [("T", .pdict [("override", .pstr "OUTER")])])])],
       .pdict [("id", .pstr "Y"),
        ("definition", .pdict [("tokenModifiers",
          .pdict [("T", .pdict [("override", .pstr "INNER")])])])]]
      (.pdict [("value", .pstr "T12"), ("categoryCode", .pstr "T")])
      (.pdict [("T12", .pdict [("name", .pstr "base")])]) = .pstr "OUTER" ∧
    applyContextModifier (.pdict [("name", .pstr "base")])
      (.pdict [("override", .pstr "INNER")]) = .pstr "INNER" ∧
    (PyVal.pstr "OUTER" ≠ PyVal.pstr "INNER") :=
  ⟨rfl, rfl, fun h => absurd (PyVal.pstr.inj h) (by decide)⟩

/-! ## Claim C7 -/

theorem alookup_extendStep_ne (acc : List (String × PyVal)) (k2 : String)
    (v : PyVal) (k : String) (h : k ≠ k2) :
    alookup (extendStep acc (k2, v)) k = alookup acc k := by
  rw [extendStep]
  dsimp only
  cases halo : alookup acc k2 with
  | none => exact alookup_dictSet_ne acc k k2 v h
  | some cur =>
    cases cur <;> cases v <;> exact alookup_dictSet_ne acc k k2 _ h

theorem alookup_extendStep_self (acc : List (String × PyVal)) (k : String)
    (v : PyVal) :
    alookup (extendStep acc (k, v)) k = some
      (match alookup acc k, v with
       | none, v2 => v2
       | some (.pdict c), .pdict p => .pdict (dictUpdate c p)
       | some (.plist c), .plist p => .plist (c ++ p)
       | some _, v2 => v2) := by
  rw [extendStep]
  dsimp only
  cases halo : alookup acc k with
  | none => rw [alookup_dictSet_self]
  | some cur =>
    cases cur <;> cases v <;> rw [alookup_dictSet_self]

theorem foldl_extendStep_ne (ext : List (String × PyVal))
    (acc : List (String × PyVal)) (k : String) (h : k ∉ ext.map Prod.fst) :
    alookup (ext.foldl extendStep acc) k = alookup acc k := by
  induction ext generalizing acc with
  | nil => rfl
  | cons q rest ih =>
    rw [List.map_cons, List.mem_cons] at h
    push_neg at h
    rw [List.foldl_cons, ih (extendStep acc q) h.2]
    obtain ⟨k1, v1⟩ := q
    exact alookup_extendStep_ne acc k1 v1 k h.1

/-- Claim C7 (corrected: the claim's "existing keys are preferred" fails, see
`extend_modifier_counterexample`).  Key-by-key semantics of an `extend`
modifier applied by `_apply_context_modifier`: keys absent from the base
are added; a key present in both with dict values is merged by
`dict.update`, the **extension's** inner entries overwriting duplicated
inner keys; list values are concatenated (base first); any other conflict
takes the **extension's** value.  The base value survives only for keys the
extension does not mention. -/
theorem extend_modifier_pointwise (base ext : List (String × PyVal))
    (k : String) (hnd : (ext.map Prod.fst).Nodup) :
    pget (applyContextModifier (.pdict base)
        (.pdict [("extend", .pdict ext)])) k =
      (match alookup ext k, alookup base k with
       | none, b => b
       | some v, none => some v
       | some (.pdict p), some (.pdict c) => some (.pdict (dictUpdate c p))
       | some (.plist p), some (.plist c) => some (.plist (c ++ p))
       | some v, some _ => some v) := by
  show alookup (ext.foldl extendStep base) k = _
  induction ext generalizing base with
  | nil =>
    rw [List.foldl_nil]
    cases hb : alookup base k <;> rfl
  | cons q rest ih =>
    obtain ⟨k1, v1⟩ := q
    rw [List.map_cons, List.nodup_cons] at hnd
    rw [List.foldl_cons]
    by_cases hk : k = k1
    · subst hk
      rw [foldl_extendStep_ne rest (extendStep base (k, v1)) k hnd.1]
      rw [alookup_extendStep_self base k v1]
      rw [show alookup ((k, v1) :: rest) k = some v1 from by simp [alookup]]
      cases hb : alookup base k with
      | none => cases v1 <;> rfl
      | some val => cases val <;> cases v1 <;> rfl
    · rw [ih (extendStep base (k1, v1)) hnd.2]
      rw [alookup_extendStep_ne base k1 v1 k hk]
      rw [show alookup ((k1, v1) :: rest) k = alookup rest k from by
        rw [alookup, if_neg (fun hh => hk hh.symm)]]

/-- Witness for the amended C7 at concrete inputs. -/
theorem extend_modifier_pointwise_witness :
    ((([("a", PyVal.pstr "1"), ("b", PyVal.plist [PyVal.pint 2])].map Prod.fst).Nodup) ∧
    pget (applyContextModifier
        (.pdict [("a", .pstr "x"), ("b", .pdict [("j", .pstr "keep")])])
        (.pdict [("extend",
          .pdict [("a", .pstr "1"), ("b", .plist [.pint 2])])])) "a" =
      (match alookup [("a", PyVal.pstr "1"), ("b", PyVal.plist [PyVal.pint 2])] "a",
        alookup [("a", PyVal.pstr "x"), ("b", PyVal.pdict [("j", PyVal.pstr "keep")])] "a" with
       | none, b => b
       | some v, none => some v
       | some (.pdict p), some (.pdict c) => some (.pdict (dictUpdate c p))
       | some (.plist p), some (.plist c) => some (.plist (c ++ p))
       | some v, some _ => some v)) :=
  ⟨by decide,
    extend_modifier_pointwise
      [("a", .pstr "x"), ("b", .pdict [("j", .pstr "keep")])]
      [("a", .pstr "1"), ("b", .plist [.pint 2])] "a" (by decide)⟩

/-- Claim C7 counterexample.  For a key present in both the base definition
and the extension, the extension's value replaces the base's: extending
`{"a": "x"}` with `{"a": "y"}` yields `{"a": "y"}`, not the base-preserving
`{"a": "x"}` the claim describes. -/
theorem extend_modifier_counterexample :
    applyContextModifier (.pdict [("a", .pstr "x")])
      (.pdict [("extend", .pdict [("a", .pstr "y")])]) =
      .pdict [("a", .pstr "y")] ∧
    pgetStr (applyContextModifier (.pdict [("a", .pstr "x")])
      (.pdict [("extend", .pdict [("a", .pstr "y")])])) "a" = "y" ∧
    ("y" : String) ≠ "x" :=
  ⟨rfl, rfl, by decide⟩

/-! ## Claim C1 -/

/-- Claim C1 (code bug).  The renderer/parser round trip fails at every
level.  The real `PAILangParser.parse` reparses nothing: its constructor
rejects the ambiguous grammar (`GrammarError` from the Lark LALR build),
so `parse(render(ast))` raises for every tree.  The failure is not only
the constructor's: the renderer inserts no grouping brackets (its
bracketing tables are dead code), so the tree
`Sequence(Parallel(T12, T13), T14)` renders to `"T12&T13>T14"`, which even
the grammar as declared reads back as `Parallel(T12, Sequence(T13, T14))`
— a different tree under the claim's identification `absTree` of the two
node vocabularies; and a repetition node renders in prefix form
`"**3T17"`, which the declared grammar (postfix `atomic "**" DIGIT`)
rejects outright, so no repetition tree could reparse either way. -/
theorem render_parse_roundtrip_failure :
    synthesizeFromTree
      (.sequence (.parallel (.token "T12") (.token "T13")) (.token "T14")) =
      "T12&T13>T14" ∧
    parse "T12&T13>T14" =
      .error "GrammarError raised by Lark LALR construction in __init__" ∧
    grammarParse "T12&T13>T14" =
      .ok ⟨none, .parE (.stok "T" "12") (.seqE (.stok "T" "13") (.stok "T" "14"))⟩ ∧
    absTree (.sequence (.parallel (.token "T12") (.token "T13")) (.token "T14")) =
      some (.seqE (.parE (.stok "T" "12") (.stok "T" "13")) (.stok "T" "14")) ∧
    (PNode.parE (.stok "T" "12") (.seqE (.stok "T" "13") (.stok "T" "14")) ≠
      PNode.seqE (.parE (.stok "T" "12") (.stok "T" "13")) (.stok "T" "14")) ∧
    synthesizeFromTree (.repetition 3 (.token "T17")) = "**3T17" ∧
    parse "**3T17" =
      .error "GrammarError raised by Lark LALR construction in __init__" ∧
    grammarParse "**3T17" = .error "Error parsing pAI_Lang string" :=
  ⟨rfl, rfl, rfl, rfl, fun h => PNode.noConfusion h, rfl, rfl, rfl⟩

/-! ## Claim C5 -/

/-- Claim C5 (code bug).  `parse("C2?T13:T16")` cannot succeed, on two
independent grounds: the constructor of `PAILangParser` rejects its own
ambiguous grammar (`GrammarError` from the Lark LALR build), so every call
of `parse` raises; and the declared grammar's `IDENTIFIER` terminal is
exactly two digits, so `"C2"` is not a token and the string is outside the
declared language anyway.  The claim, the spec's scenario, and the
repository's own tests expect a `ConditionalExpression` with condition
`Token("C2")`; only the two-digit variant `"C20?T13:T16"` reads back as
that conditional shape, and only under the grammar as declared, never
through the program's parser. -/
theorem parse_single_digit_conditional_fails :
    parse "C2?T13:T16" =
      .error "GrammarError raised by Lark LALR construction in __init__" ∧
    grammarParse "C2?T13:T16" = .error "Error parsing pAI_Lang string" ∧
    grammarParse "C20?T13:T16" =
      .ok ⟨none, .condE (.stok "C" "20") (.stok "T" "13") (.stok "T" "16")⟩ :=
  ⟨rfl, rfl, rfl⟩

end PAILang
